import Mathlib

/-!
Verification development for the openpaw message-routing core.

The repository is a multi-channel chat bridge: a Router polls a message
store, claims per-group batches via persisted cursors, and drives
containerized agent runs through a per-group queue.  This file gives a
shallow embedding of the functions the checked claims are about:

* `readEnvFile` / `updateEnvFile`            (src/env.ts)
* `telegramSendMessage`                      (Telegram channel adapter)
* `acquireSingletonLock`                     (src/index.ts)
* `processGroupMessages`, the poll-iteration
  body of `startMessageLoop`, and the helpers
  they call                                  (src/index.ts)

Strings are modelled as Lean `String` / `List Char`; JavaScript string
helpers (`trim`, `split('\n')`, `indexOf`, `slice`) are re-implemented
over `List Char`.  Functions of out-of-repo collaborators (the SQLite
helpers `getMessagesSince` / `getNewMessages`, the group queue, and the
prompt formatter) are modelled from the specification and marked as such
in their doc comments.
-/

/-- JavaScript-style whitespace test used by `String.prototype.trim`. -/
def isJsWs (c : Char) : Bool := c.isWhitespace

/-- Left trim: drop leading whitespace. -/
def trimLeft (l : List Char) : List Char := l.dropWhile isJsWs

/-- Right trim: drop trailing whitespace. -/
def trimRight (l : List Char) : List Char := (l.reverse.dropWhile isJsWs).reverse

/-- Model of JavaScript `String.prototype.trim`. -/
def jsTrim (l : List Char) : List Char := trimRight (trimLeft l)

/-- Model of JavaScript `content.split('\n')`. -/
def splitNl : List Char → List (List Char)
  | [] => [[]]
  | c :: rest =>
    if c = '\n' then [] :: splitNl rest
    else (splitNl rest).modifyHead (fun h => c :: h)

/-- Model of JavaScript `lines.join('\n')`. -/
def joinNl : List (List Char) → List Char
  | [] => []
  | [l] => l
  | l :: ls => l ++ '\n' :: joinNl ls

/-- Strip a matching pair of surrounding double or single quotes,
mirroring the `startsWith`/`endsWith` check in `readEnvFile`. -/
def stripQuotes (v : List Char) : List Char :=
  if (v.head? = some '"' ∧ v.getLast? = some '"') ∨
     (v.head? = some '\'' ∧ v.getLast? = some '\'') then
    (v.drop 1).dropLast
  else v

/-- Shared line parser for the `.env` helpers: trim the line, skip blank
lines and `#` comments, find the first `=`, and return the trimmed key
and the trimmed raw value.  This is the parsing logic duplicated inside
`readEnvFile` and `updateEnvFile` in `src/env.ts`. -/
def envParseLine (line : List Char) : Option (List Char × List Char) :=
  let t := jsTrim line
  if t.isEmpty then none
  else if t.head? = some '#' then none
  else
    match t.findIdx? (· = '=') with
    | none => none
    | some i => some (jsTrim (t.take i), jsTrim (t.drop (i + 1)))

/-- Association-list lookup (JavaScript object property read). -/
def envLookup (m : List (List Char × List Char)) (k : List Char) :
    Option (List Char) :=
  match m with
  | [] => none
  | (k', v) :: rest => if k' = k then some v else envLookup rest k

/-- Association-list assignment (JavaScript `result[key] = value`). -/
def envSet (m : List (List Char × List Char)) (k v : List Char) :
    List (List Char × List Char) :=
  match m with
  | [] => [(k, v)]
  | (k', v') :: rest =>
    if k' = k then (k, v) :: rest else (k', v') :: envSet rest k v

/-- One loop iteration of `readEnvFile` over a single line of the file. -/
def readEnvStep (wanted : List (List Char))
    (acc : List (List Char × List Char)) (line : List Char) :
    List (List Char × List Char) :=
  match envParseLine line with
  | none => acc
  | some (key, rawv) =>
    if wanted.contains key then
      let v := stripQuotes rawv
      if v.isEmpty then acc else envSet acc key v
    else acc

/-- Model of `readEnvFile` from `src/env.ts`: parse the `.env` content
and return the values of the requested keys (later lines override
earlier ones, empty values are dropped). -/
def readEnvFile (keys : List (List Char)) (content : List Char) :
    List (List Char × List Char) :=
  (splitNl content).foldl (readEnvStep keys) []

/-- The replacement line `key=value` written by `updateEnvFile`. -/
def envMkLine (k v : List Char) : List Char := k ++ '=' :: v

/-- How the per-line loop of `updateEnvFile` rewrites one line: blank,
comment, and `=`-less lines are kept, a line whose key is being updated
becomes `key=value`, and any other line is kept. -/
def updateEnvLine (updates : List (List Char × List Char))
    (line : List Char) : List Char :=
  match envParseLine line with
  | none => line
  | some (key, _) =>
    match envLookup updates key with
    | some newValue => envMkLine key newValue
    | none => line

/-- The key the per-line loop of `updateEnvFile` adds to `foundKeys`
for one line, when any. -/
def updateEnvFound (updates : List (List Char × List Char))
    (line : List Char) : Option (List Char) :=
  match envParseLine line with
  | none => none
  | some (key, _) =>
    match envLookup updates key with
    | some _ => some key
    | none => none

/-- Model of `updateEnvFile` from `src/env.ts`: rewrite every line whose
key is being updated, keep all other lines, and append `key=value` lines
for keys that were not found; the result is joined with newlines and
terminated with a final newline.  (The source's single loop accumulates
`newLines` and `foundKeys` together; it is rendered here as a map and a
filterMap over the same lines.) -/
def updateEnvFile (updates : List (List Char × List Char))
    (content : List Char) : List Char :=
  let lines := splitNl content
  let newLines := lines.map (updateEnvLine updates)
  let foundKeys := lines.filterMap (updateEnvFound updates)
  let appended := (updates.filter fun kv => ¬ foundKeys.contains kv.1).map
    fun kv => envMkLine kv.1 kv.2
  joinNl (newLines ++ appended) ++ ['\n']

/-! ## Telegram channel: `sendMessage` (channel adapter source file) -/

/-- Telegram's per-message character limit, `MAX_LENGTH` in the adapter. -/
def MAX_LENGTH : Nat := 4096

/-- An `onOutgoingMessage` record stored for a sent bot message (the
fields the storage claim is about). -/
structure SentRecord where
  content : String
  is_bot_message : Bool
deriving Repr, DecidableEq

/-- The chunking loop of `TelegramChannel.sendMessage`
(`for (let i = 0; i < text.length; i += MAX_LENGTH)`): send each
4096-character slice in order and record only the first chunk's send as
the outgoing bot message, with the full original text as its content. -/
def telegramSendLoop (fullText : String) (rest : List Char)
    (isFirst : Bool) : List String × List SentRecord :=
  match rest with
  | [] => ([], [])
  | c :: tl =>
    let chunk := String.mk ((c :: tl).take MAX_LENGTH)
    let nxt := telegramSendLoop fullText ((c :: tl).drop MAX_LENGTH) false
    (chunk :: nxt.1,
      (if isFirst then [⟨fullText, true⟩] else []) ++ nxt.2)
  termination_by rest.length
  decreasing_by
    simp only [MAX_LENGTH, List.length_drop, List.length_cons]
    omega

/-- Model of `TelegramChannel.sendMessage`: the list of texts passed to
`api.sendMessage` (in order) and the list of `onOutgoingMessage`
records. -/
def telegramSendMessage (text : String) : List String × List SentRecord :=
  if text.length ≤ MAX_LENGTH then ([text], [⟨text, true⟩])
  else telegramSendLoop text text.toList true

/-- In-order concatenation of a list of strings (what the recipient of
consecutive chunks reassembles). -/
def strConcat (l : List String) : String :=
  String.mk (l.map String.toList).flatten

/-! ## Singleton lock: `acquireSingletonLock` (src/index.ts) -/

/-- Outcome of the singleton-lock acquisition: the lock file is created
with the current PID, or the process exits fatally (live competing
holder / unremovable stale lock / both attempts exhausted). -/
inductive LockOutcome where
  | acquired (lockFile : Option String)
  | fatalAlive (existingPid : Nat)
  | fatalUnlink
  | fatalExhausted
deriving Repr, DecidableEq

/-- Environment of the lock routine: which PIDs are alive
(`process.kill(pid, 0)` succeeding) and whether `fs.unlinkSync` on the
lock path succeeds. -/
structure LockEnv where
  alive : Nat → Bool
  unlinkOk : Bool

/-- Model of `Number.parseInt(raw.trim(), 10)` followed by the
`Number.isFinite(parsed) && parsed > 0` validity check: the leading
decimal-digit run of the trimmed content, kept only when positive. -/
def parseLockPid (raw : String) : Option Nat :=
  let ds := (jsTrim raw.toList).takeWhile (·.isDigit)
  if ds.isEmpty then none
  else
    let n := ds.foldl (fun a c => a * 10 + (c.toNat - '0'.toNat)) 0
    if 0 < n then some n else none

/-- Result of one iteration of the `for (attempt …)` loop in
`acquireSingletonLock`. -/
inductive LockStep where
  | done (o : LockOutcome)
  | retry (lockFile : Option String)
deriving Repr

/-- One attempt of `acquireSingletonLock`: try `openSync(…, 'wx')`; on
`EEXIST`, read the recorded PID; a live PID other than our own is a
fatal exit; otherwise the stale lock is unlinked (fatally failing if the
unlink fails) and the loop retries. -/
def lockAttempt (env : LockEnv) (pid : Nat) (lockFile : Option String) :
    LockStep :=
  match lockFile with
  | none => .done (.acquired (some (toString pid ++ "\n")))
  | some content =>
    match parseLockPid content with
    | some existingPid =>
      if existingPid ≠ pid ∧ env.alive existingPid then
        .done (.fatalAlive existingPid)
      else if env.unlinkOk then .retry none
      else .done .fatalUnlink
    | none => if env.unlinkOk then .retry none else .done .fatalUnlink

/-- Model of `acquireSingletonLock` from `src/index.ts`: at most two
attempts of `lockAttempt`, with a fatal exit when both are consumed. -/
def acquireSingletonLock (env : LockEnv) (pid : Nat)
    (lockFile : Option String) : LockOutcome :=
  match lockAttempt env pid lockFile with
  | .done o => o
  | .retry f1 =>
    match lockAttempt env pid f1 with
    | .done o => o
    | .retry _ => .fatalExhausted

/-! ## Router core: data model -/

/-- A stored chat message (`NewMessage` in `src/types.ts`).  Timestamps
are RFC3339 strings ordered lexicographically. -/
structure NewMessage where
  id : String
  chat_jid : String
  sender : String
  sender_name : String
  content : String
  timestamp : String
  is_from_me : Bool := false
  is_bot_message : Bool := false
deriving Repr, DecidableEq

/-- A registered group (`RegisteredGroup` in `src/types.ts`). -/
structure RegisteredGroup where
  name : String
  folder : String
  trigger : String := ""
  added_at : String := ""
deriving Repr, DecidableEq

/-- Configuration values consumed by the router, plus the channel
routing predicate (`findChannel` returns a channel iff some channel
owns the JID). -/
structure Config where
  assistantName : String
  mainGroupFolder : String
  idleTimeout : Nat
  channelOwns : String → Bool

/-- The two router cursors as persisted in the `router_state` KV area by
`saveState`. -/
structure Persisted where
  last_timestamp : String
  last_agent_timestamp : List (String × String)
deriving Repr, DecidableEq

/-- The router's mutable module state (`lastTimestamp`,
`lastAgentTimestamp`, `sessions`) together with its persisted copy. -/
structure RouterState where
  lastTimestamp : String
  lastAgentTimestamp : List (String × String)
  sessions : List (String × String)
  db : Persisted
deriving Repr, DecidableEq

/-- `saveState` from `src/index.ts`: persist both cursors. -/
def saveState (st : RouterState) : RouterState :=
  { st with db := ⟨st.lastTimestamp, st.lastAgentTimestamp⟩ }

/-- Map read with JavaScript `|| ''` defaulting
(`lastAgentTimestamp[jid] || ''`). -/
def aget (m : List (String × String)) (k : String) : String :=
  match m with
  | [] => ""
  | (k', v) :: rest => if k' = k then v else aget rest k

/-- Map assignment (`lastAgentTimestamp[jid] = ts`). -/
def aset (m : List (String × String)) (k v : String) :
    List (String × String) :=
  match m with
  | [] => [(k, v)]
  | (k', v') :: rest =>
    if k' = k then (k, v) :: rest else (k', v') :: aset rest k v

/-- Lexicographic strict comparison of character lists by code point,
the order of RFC3339 timestamp strings. -/
def listLt : List Char → List Char → Bool
  | [], [] => false
  | [], _ :: _ => true
  | _ :: _, [] => false
  | a :: as, b :: bs =>
    if a.toNat < b.toNat then true
    else if b.toNat < a.toNat then false
    else listLt as bs

/-- Strict lexicographic comparison of strings (SQL `>` on timestamp
columns, read as `strLt smaller larger`). -/
def strLt (a b : String) : Bool := listLt a.toList b.toList

/-- Non-strict lexicographic comparison of strings. -/
def strLe (a b : String) : Bool := ! strLt b a

/-- Maximum of two strings in lexicographic order. -/
def strMax (a b : String) : String := if strLt a b then b else a

/-- Modelled from the spec: `getMessagesSince(jid, since, assistantName)`
of the out-of-repo SQLite helper `src/db.ts` returns the pending
messages of the chat — every stored row of that chat with timestamp
strictly greater than the cursor, excluding bot-authored rows. -/
def getMessagesSince (store : List NewMessage) (jid since : String)
    (_assistantName : String) : List NewMessage :=
  store.filter fun m =>
    m.chat_jid == jid && !m.is_bot_message && strLt since m.timestamp

/-- Modelled from the spec: `getNewMessages(jids, lastTimestamp,
assistantName)` of the out-of-repo `src/db.ts` returns every stored row
with timestamp strictly greater than the observation cursor that
belongs to a registered JID, excluding bot-authored rows, together with
the maximum observed timestamp. -/
def getNewMessages (store : List NewMessage) (jids : List String)
    (lastTimestamp : String) (_assistantName : String) :
    List NewMessage × String :=
  let msgs := store.filter fun m =>
    jids.contains m.chat_jid && !m.is_bot_message &&
      strLt lastTimestamp m.timestamp
  (msgs, msgs.foldl (fun acc m => strMax acc m.timestamp) lastTimestamp)

/-- Modelled from the spec: `escapeXml` of the out-of-repo
`src/router.ts` XML-escapes message content. -/
def escapeXml (s : String) : String :=
  String.mk (s.toList.flatMap fun c =>
    if c = '&' then "&amp;".toList
    else if c = '<' then "&lt;".toList
    else if c = '>' then "&gt;".toList
    else if c = '"' then "&quot;".toList
    else if c = '\'' then "&apos;".toList
    else [c])

/-- Modelled from the spec: `formatMessages` of the out-of-repo
`src/router.ts` renders a batch of messages as the `<messages>` XML
prompt. -/
def formatMessages (msgs : List NewMessage) : String :=
  "<messages>\n" ++
    String.join (msgs.map fun m =>
      "  <message from=\"" ++ escapeXml m.sender_name ++ "\" ts=\"" ++
        m.timestamp ++ "\">\n    <content>" ++ escapeXml m.content ++
        "</content>\n  </message>\n") ++
    "</messages>"

/-- Timestamp of the last message of a batch
(`messages[messages.length - 1].timestamp`; `""` for an empty batch). -/
def lastTs (l : List NewMessage) : String :=
  match l.getLast? with
  | some m => m.timestamp
  | none => ""

/-! ## Router core: agent stream records -/

/-- A parsed record of the container's line-framed output stream
(`ContainerOutput` of `src/container-runner.ts`).  The `result` payload
is `none` for `null`/absent; a JSON object payload is represented by its
(non-empty) stringification. -/
structure ContainerOutput where
  status : String
  result : Option String := none
  newSessionId : Option String := none
  error : Option String := none
deriving Repr, DecidableEq

/-- JavaScript truthiness of `result.result`: `null` and the empty
string are falsy. -/
def resultTruthy (r : ContainerOutput) : Bool :=
  match r.result with
  | some s => s ≠ ""
  | none => false

/-- Split a list around the first occurrence of `pat`, returning the
part before and the part after the occurrence. -/
def splitFirst (pat : List Char) : List Char → Option (List Char × List Char)
  | [] => if pat.isEmpty then some ([], []) else none
  | c :: rest =>
    if pat.isPrefixOf (c :: rest) then some ([], (c :: rest).drop pat.length)
    else
      match splitFirst pat rest with
      | some (b, a) => some (c :: b, a)
      | none => none

/-- Fuelled worker for `stripInternal`; each successful step removes at
least the two tag occurrences, so `l.length` fuel always suffices. -/
def stripInternalFuel : Nat → List Char → List Char
  | 0, l => l
  | fuel + 1, l =>
    match splitFirst "<internal>".toList l with
    | none => l
    | some (before, after) =>
      match splitFirst "</internal>".toList after with
      | none => l
      | some (_, rest) => before ++ stripInternalFuel fuel rest

/-- Model of `raw.replace(/<internal>[\s\S]*?<\/internal>/g, '')`: drop
every non-greedy `<internal>…</internal>` block. -/
def stripInternal (l : List Char) : List Char := stripInternalFuel l.length l

/-- The user-visible text of a streamed record: under the truthiness
guard, the payload with `<internal>` blocks stripped and trimmed;
`none` when nothing would be sent. -/
def recordVisibleText (r : ContainerOutput) : Option String :=
  if resultTruthy r then
    let raw := r.result.getD ""
    let text := String.mk (jsTrim (stripInternal raw.toList))
    if text = "" then none else some text
  else none

/-! ## Router core: side-effect trace and `processGroupMessages` -/

/-- The action a `setTimeout` callback would perform on expiry.  The
idle timer only ever closes the container's stdin; `killAct` exists so
that "never a kill" is expressible. -/
inductive TimerAction where
  | closeStdinAct (jid : String)
  | killAct (jid : String)
deriving Repr, DecidableEq

/-- Observable side effects of the router, in program order:
persistence of the cursors, agent invocation, channel sends and typing
indicators, queue notifications, and idle-timer operations. -/
inductive Event where
  | persist (db : Persisted)
  | invokeAgent (jid prompt : String)
  | send (jid text : String)
  | typing (jid : String) (flag : Bool)
  | notifyIdle (jid : String)
  | pipe (jid text : String)
  | enqueueCheck (jid : String)
  | armTimer (delay : Nat) (act : TimerAction)
  | clearTimer
deriving Repr, DecidableEq

/-- Whether an event arms the idle timer. -/
def isArmEvent : Event → Bool
  | .armTimer _ _ => true
  | _ => false

/-- State threaded through the streaming-output callback of
`processGroupMessages`: router state (sessions get updated from
streamed records), the `outputSentToUser` / `hadError` flags, the
currently armed idle timer, and the accumulated side-effect trace. -/
structure CallbackState where
  st : RouterState
  outputSent : Bool
  hadError : Bool
  timer : Option (Nat × TimerAction)
  trace : List Event
deriving Repr

/-- One invocation of the streaming-output callback of
`processGroupMessages` (wrapped by `runAgent` to record session
updates): store a new session id if present; if the `result` payload is
truthy, send the stripped text when non-empty (marking
`outputSentToUser`) and re-arm the idle timer; notify the queue on a
`success` record; latch `hadError` on an `error` record. -/
def onStreamRecord (cfg : Config) (groupFolder chatJid : String)
    (cs : CallbackState) (r : ContainerOutput) : CallbackState :=
  let cs1 :=
    match r.newSessionId with
    | some sid =>
      { cs with st := { cs.st with sessions := aset cs.st.sessions groupFolder sid } }
    | none => cs
  let cs2 :=
    if resultTruthy r then
      let css :=
        match recordVisibleText r with
        | some t =>
          { cs1 with outputSent := true, trace := cs1.trace ++ [Event.send chatJid t] }
        | none => cs1
      { css with
        timer := some (cfg.idleTimeout, TimerAction.closeStdinAct chatJid),
        trace := css.trace ++
          [Event.armTimer cfg.idleTimeout (TimerAction.closeStdinAct chatJid)] }
    else cs1
  let cs3 :=
    if r.status == "success" then
      { cs2 with trace := cs2.trace ++ [Event.notifyIdle chatJid] }
    else cs2
  if r.status == "error" then { cs3 with hadError := true } else cs3

/-- The events `onStreamRecord` appends for one streamed record: the
channel send (when visible text remains), the idle-timer re-arm (when
the payload is truthy), and the idle notification (on `success`). -/
def recordEvents (cfg : Config) (chatJid : String) (r : ContainerOutput) :
    List Event :=
  (match recordVisibleText r with
   | some t => [Event.send chatJid t]
   | none => []) ++
  (if resultTruthy r then
    [Event.armTimer cfg.idleTimeout (TimerAction.closeStdinAct chatJid)]
   else []) ++
  (if r.status == "success" then [Event.notifyIdle chatJid] else [])

/-- The session update `runAgent` performs from the terminal
`ContainerOutput` of `runContainerAgent` (skipped when the runner threw
and the `catch` branch ran). -/
def termSessionUpdate (groupFolder : String) (terminal : ContainerOutput)
    (crashed : Bool) (cs : CallbackState) : CallbackState :=
  if crashed then cs
  else
    match terminal.newSessionId with
    | some sid =>
      { cs with st := { cs.st with sessions := aset cs.st.sessions groupFolder sid } }
    | none => cs

/-- Result of `processGroupMessages`: the boolean returned to the
queue, the router state, the armed idle timer left behind (always
disarmed at termination), and the side-effect trace. -/
structure PGMResult where
  ret : Bool
  st : RouterState
  timer : Option (Nat × TimerAction)
  trace : List Event
deriving Repr, DecidableEq

/-- Entry of the non-trivial path of `processGroupMessages`: advance
the cursor to the last pending message's timestamp, persist, and start
the callback state — the trace opens with that persistence, the typing
indicator, and the agent invocation, in program order. -/
def pgmInit (st : RouterState) (chatJid : String)
    (missedMessages : List NewMessage) : CallbackState :=
  let prompt := formatMessages missedMessages
  let claimed := aset st.lastAgentTimestamp chatJid (lastTs missedMessages)
  let st1 := saveState { st with lastAgentTimestamp := claimed }
  ⟨st1, false, false, none,
    [Event.persist st1.db, Event.typing chatJid true,
      Event.invokeAgent chatJid prompt]⟩

/-- Continuation of `pgmRun`: after the cursor is claimed, run the
agent over the streamed records with the callback, apply the terminal
session update, then either return true, or — on terminal error with no
output sent — roll the cursor back, persist, and return false.
`terminal` is the final `ContainerOutput` of `runContainerAgent` and
`crashed` models the `catch` branch of `runAgent`. -/
def pgmRun (cfg : Config) (group : RegisteredGroup)
    (script : List ContainerOutput) (terminal : ContainerOutput)
    (crashed : Bool) (st : RouterState) (chatJid : String)
    (missedMessages : List NewMessage) : PGMResult :=
  let previousCursor := aget st.lastAgentTimestamp chatJid
  let cs0 := pgmInit st chatJid missedMessages
  let cs1 := script.foldl (onStreamRecord cfg group.folder chatJid) cs0
  let cs2 := termSessionUpdate group.folder terminal crashed cs1
  let output : String :=
    if crashed || (terminal.status == "error") then "error" else "success"
  let trace2 := cs2.trace ++ [Event.typing chatJid false] ++
    (if cs2.timer.isSome then [Event.clearTimer] else [])
  if output == "error" || cs2.hadError then
    if cs2.outputSent then ⟨true, cs2.st, none, trace2⟩
    else
      let rolledBack := aset cs2.st.lastAgentTimestamp chatJid previousCursor
      let st3 := saveState { cs2.st with lastAgentTimestamp := rolledBack }
      ⟨false, st3, none, trace2 ++ [Event.persist st3.db]⟩
  else ⟨true, cs2.st, none, trace2⟩

/-- Model of `processGroupMessages` from `src/index.ts`: skip
unregistered groups and JIDs no channel owns, return true on an empty
pending set, and otherwise run `pgmRun`. -/
def processGroupMessages (cfg : Config)
    (groups : List (String × RegisteredGroup)) (store : List NewMessage)
    (script : List ContainerOutput) (terminal : ContainerOutput)
    (crashed : Bool) (st : RouterState) (chatJid : String) : PGMResult :=
  match groups.lookup chatJid with
  | none => ⟨true, st, none, []⟩
  | some group =>
    if cfg.channelOwns chatJid then
      let sinceTimestamp := aget st.lastAgentTimestamp chatJid
      let missedMessages :=
        getMessagesSince store chatJid sinceTimestamp cfg.assistantName
      if missedMessages.isEmpty then ⟨true, st, none, []⟩
      else pgmRun cfg group script terminal crashed st chatJid missedMessages
    else ⟨true, st, none, []⟩

/-! ## Router core: message loop (one poll iteration) -/

/-- Modelled from the spec: the `GroupQueue` state the message loop
interacts with — the set of JIDs with a live registered agent process
and the queued "check" markers. -/
structure QueueState where
  active : List String
  enqueued : List String
deriving Repr, DecidableEq

/-- Modelled from the spec: `queue.sendMessage(jid, text)` writes to the
live agent's stdin and returns true iff a live agent exists for the
JID. -/
def queueSendMessage (q : QueueState) (jid : String) : Bool :=
  q.active.contains jid

/-- Modelled from the spec: `queue.enqueueMessageCheck(jid)` appends a
check marker for the JID. -/
def enqueueMessageCheck (q : QueueState) (jid : String) : QueueState :=
  { q with enqueued := q.enqueued ++ [jid] }

/-- One step of the `messagesByGroup` grouping in `startMessageLoop`
(a `Map` keyed by `chat_jid`, preserving first-seen order, each group
accumulating its messages in order). -/
def addToGroup (acc : List (String × List NewMessage)) (m : NewMessage) :
    List (String × List NewMessage) :=
  match acc with
  | [] => [(m.chat_jid, [m])]
  | (j, ms) :: rest =>
    if j = m.chat_jid then (j, ms ++ [m]) :: rest
    else (j, ms) :: addToGroup rest m

/-- The `messagesByGroup` map of `startMessageLoop`. -/
def groupByJid (msgs : List NewMessage) : List (String × List NewMessage) :=
  msgs.foldl addToGroup []

/-- The per-group body of the poll iteration in `startMessageLoop`:
for one `(chatJid, groupMessages)` entry, pull all pending messages
since the agent cursor, format them, and either pipe them to the live
agent (advancing and persisting the agent cursor, then requesting a
typing indicator) or enqueue a message check. -/
def dispatchGroup (cfg : Config)
    (groups : List (String × RegisteredGroup)) (store : List NewMessage)
    (acc : RouterState × QueueState × List Event)
    (entry : String × List NewMessage) :
    RouterState × QueueState × List Event :=
  let st := acc.1
  let q := acc.2.1
  let tr := acc.2.2
  let chatJid := entry.1
  let groupMessages := entry.2
  match groups.lookup chatJid with
  | none => (st, q, tr)
  | some _ =>
    if cfg.channelOwns chatJid then
      let allPending :=
        getMessagesSince store chatJid (aget st.lastAgentTimestamp chatJid)
          cfg.assistantName
      let messagesToSend :=
        if 0 < allPending.length then allPending else groupMessages
      let formatted := formatMessages messagesToSend
      if queueSendMessage q chatJid then
        let advanced := aset st.lastAgentTimestamp chatJid (lastTs messagesToSend)
        let st1 := saveState { st with lastAgentTimestamp := advanced }
        (st1, q,
          tr ++ [Event.pipe chatJid formatted, Event.persist st1.db,
            Event.typing chatJid true])
      else (st, enqueueMessageCheck q chatJid, tr ++ [Event.enqueueCheck chatJid])
    else (st, q, tr)

/-- One poll iteration of `startMessageLoop` from `src/index.ts`: query
the new messages, persist the advanced observation cursor immediately
when any were observed, then dispatch each group's batch. -/
def pollIteration (cfg : Config)
    (groups : List (String × RegisteredGroup)) (store : List NewMessage)
    (q : QueueState) (st : RouterState) :
    RouterState × QueueState × List Event :=
  let jids := groups.map (·.1)
  let res := getNewMessages store jids st.lastTimestamp cfg.assistantName
  if res.1.isEmpty then (st, q, [])
  else
    let st1 := saveState { st with lastTimestamp := res.2 }
    (groupByJid res.1).foldl (dispatchGroup cfg groups store)
      (st1, q, [Event.persist st1.db])

/-! ## Concrete fixtures used by the witness theorems -/

/-- Concrete configuration for witnesses. -/
def wCfg : Config := ⟨"Andy", "main", 7, fun j => j == "tg:100"⟩

/-- Concrete registered group for witnesses. -/
def wGroup : RegisteredGroup := ⟨"G", "g", "", ""⟩

/-- Concrete registered-groups map for witnesses. -/
def wGroups : List (String × RegisteredGroup) := [("tg:100", wGroup)]

/-- Concrete stored message (timestamp 1) for witnesses. -/
def wMsg1 : NewMessage := ⟨"m1", "tg:100", "42", "Alice", "hi", "1", false, false⟩

/-- Concrete stored message (timestamp 2) for witnesses. -/
def wMsg2 : NewMessage :=
  ⟨"m2", "tg:100", "42", "Alice", "how are you", "2", false, false⟩

/-- Concrete message store for witnesses. -/
def wStore : List NewMessage := [wMsg1, wMsg2]

/-- Concrete initial router state for witnesses. -/
def wSt : RouterState := ⟨"", [], [], ⟨"", []⟩⟩

/-- Concrete queue with a live agent for `tg:100`. -/
def wQLive : QueueState := ⟨["tg:100"], []⟩

/-- Concrete queue with no live agent. -/
def wQIdle : QueueState := ⟨[], []⟩

/-! # Theorems -/

example : readEnvFile ["K".toList] "K=hello\nX=1".toList =
    [("K".toList, "hello".toList)] := by decide

example : updateEnvFile [("K".toList, "v2".toList)] "K=v1\nX=1".toList =
    "K=v2\nX=1\n".toList := by decide

example : updateEnvFile [("K".toList, "v2".toList)] "X=1".toList =
    "X=1\nK=v2\n".toList := by decide

example : readEnvFile ["K".toList]
    (updateEnvFile [("K".toList, "a ".toList)] []) =
    [("K".toList, "a".toList)] := by decide

example :
    acquireSingletonLock ⟨fun _ => true, true⟩ 10 (some "99\n") =
      .fatalAlive 99 := by decide

example :
    acquireSingletonLock ⟨fun _ => false, true⟩ 10 (some "99\n") =
      .acquired (some "10\n") := by decide

example :
    acquireSingletonLock ⟨fun _ => false, false⟩ 10 (some "99\n") =
      .fatalUnlink := by decide

example :
    recordVisibleText ⟨"success", some "a<internal>x</internal>b", none, none⟩ =
      some "ab" := by decide

example :
    recordVisibleText ⟨"success", some " <internal>x</internal> ", none, none⟩ =
      none := by decide

example :
    processGroupMessages wCfg wGroups [] [] ⟨"success", none, none, none⟩
      false wSt "tg:100" = ⟨true, wSt, none, []⟩ := by decide

example :
    (processGroupMessages wCfg wGroups wStore [] ⟨"error", none, none, none⟩
      false wSt "tg:100").ret = false := by decide

example :
    aget (processGroupMessages wCfg wGroups wStore []
      ⟨"error", none, none, none⟩ false wSt "tg:100").st.lastAgentTimestamp
      "tg:100" = "" := by decide

example :
    (processGroupMessages wCfg wGroups wStore
      [⟨"success", some "hello", none, none⟩] ⟨"error", none, none, none⟩
      false wSt "tg:100").ret = true := by decide

example :
    aget (processGroupMessages wCfg wGroups wStore
      [⟨"success", some "hello", none, none⟩] ⟨"error", none, none, none⟩
      false wSt "tg:100").st.lastAgentTimestamp "tg:100" = "2" := by decide

example :
    ((processGroupMessages wCfg wGroups wStore
      [⟨"progress", none, none, none⟩] ⟨"success", none, none, none⟩
      false wSt "tg:100").trace.filter isArmEvent).length = 0 := by decide

example :
    ((processGroupMessages wCfg wGroups wStore
      [⟨"success", some "hello", none, none⟩] ⟨"success", none, none, none⟩
      false wSt "tg:100").trace.filter isArmEvent) =
      [Event.armTimer 7 (TimerAction.closeStdinAct "tg:100")] := by decide

/-! ## C8: singleton lock -/

/-- C8: at startup, `acquireSingletonLock` exits the process with a
fatal error when the lock file's recorded PID belongs to a live process
other than the current one; when the recorded PID is dead it reclaims
the lock (deletes it and re-creates it with the current PID) after at
most one retry; and failure to clear the stale lock is also fatal. -/
theorem acquireSingletonLock_spec (env : LockEnv) (pid p : Nat) (c : String)
    (hpid : parseLockPid c = some p) (hne : p ≠ pid) :
    (env.alive p = true →
      acquireSingletonLock env pid (some c) = LockOutcome.fatalAlive p) ∧
    (env.alive p = false → env.unlinkOk = true →
      acquireSingletonLock env pid (some c) =
        LockOutcome.acquired (some (toString pid ++ "\n"))) ∧
    (env.alive p = false → env.unlinkOk = false →
      acquireSingletonLock env pid (some c) = LockOutcome.fatalUnlink) := by
  refine ⟨fun halive => ?_, fun halive hunlink => ?_, fun halive hunlink => ?_⟩ <;>
    simp [acquireSingletonLock, lockAttempt, hpid, hne, halive, *]

/-- Witness for `acquireSingletonLock_spec` at a concrete lock file
recording PID 99 while the current process is PID 10. -/
theorem acquireSingletonLock_spec_witness :
    acquireSingletonLock ⟨fun _ => true, true⟩ 10 (some "99\n") =
      LockOutcome.fatalAlive 99 ∧
    acquireSingletonLock ⟨fun _ => false, true⟩ 10 (some "99\n") =
      LockOutcome.acquired (some (toString 10 ++ "\n")) ∧
    acquireSingletonLock ⟨fun _ => false, false⟩ 10 (some "99\n") =
      LockOutcome.fatalUnlink :=
  ⟨(acquireSingletonLock_spec ⟨fun _ => true, true⟩ 10 99 "99\n" (by decide)
      (by decide)).1 rfl,
   (acquireSingletonLock_spec ⟨fun _ => false, true⟩ 10 99 "99\n" (by decide)
      (by decide)).2.1 rfl rfl,
   (acquireSingletonLock_spec ⟨fun _ => false, false⟩ 10 99 "99\n" (by decide)
      (by decide)).2.2 rfl rfl⟩

/-! ## C9: Telegram `sendMessage` chunking -/

/-- Characterization of the chunking loop: chunks are at most
`MAX_LENGTH` characters, their in-order concatenation is the input, and
only the first chunk's send is recorded, carrying the full text. -/
theorem telegramSendLoop_spec (fullText : String) :
    ∀ (n : Nat) (l : List Char), l.length ≤ n → ∀ (fr : Bool),
      (∀ c ∈ (telegramSendLoop fullText l fr).1, c.length ≤ MAX_LENGTH) ∧
      ((telegramSendLoop fullText l fr).1.map String.toList).flatten = l ∧
      (telegramSendLoop fullText l fr).2 =
        (if fr = true ∧ l ≠ [] then [⟨fullText, true⟩] else []) := by
  intro n
  induction n with
  | zero =>
    intro l hl fr
    have hnil : l = [] := List.eq_nil_of_length_eq_zero (Nat.le_zero.mp hl)
    subst hnil
    simp [telegramSendLoop]
  | succ n ih =>
    intro l hl fr
    match l with
    | [] => simp [telegramSendLoop]
    | c :: tl =>
      have hdrop : ((c :: tl).drop MAX_LENGTH).length ≤ n := by
        simp only [MAX_LENGTH, List.length_drop, List.length_cons]
        simp only [List.length_cons] at hl
        omega
      obtain ⟨ih1, ih2, ih3⟩ := ih ((c :: tl).drop MAX_LENGTH) hdrop false
      rw [telegramSendLoop]
      refine ⟨?_, ?_, ?_⟩
      · intro s hs
        simp only [List.mem_cons] at hs
        rcases hs with hs | hs
        · subst hs
          simp only [String.length, String.mk, List.length_take]
          omega
        · exact ih1 s hs
      · simp only [List.map_cons, List.flatten_cons, ih2]
        simp only [String.toList, String.mk]
        exact List.take_append_drop _ _
      · simp only [ih3]
        simp

/-- C9: `TelegramChannel.sendMessage` sends the text as a single message
when its length is at most 4096 characters, and otherwise splits it into
consecutive chunks of at most 4096 characters sent in order; in the
split case only the first chunk's send is recorded as the outgoing bot
message, with the full original text as its content and
`is_bot_message = true`. -/
theorem telegramSendMessage_spec (text : String) :
    (text.length ≤ MAX_LENGTH →
      telegramSendMessage text = ([text], [⟨text, true⟩])) ∧
    (MAX_LENGTH < text.length →
      (∀ c ∈ (telegramSendMessage text).1, c.length ≤ MAX_LENGTH) ∧
      strConcat (telegramSendMessage text).1 = text ∧
      (telegramSendMessage text).2 = [⟨text, true⟩]) := by
  constructor
  · intro hle
    unfold telegramSendMessage
    rw [if_pos hle]
  · intro hgt
    have hnle : ¬ text.length ≤ MAX_LENGTH := Nat.not_le.mpr hgt
    have hne : text.toList ≠ [] := by
      intro h
      have h0 : text.length = 0 := by
        have hd : text.data = [] := h
        show text.data.length = 0
        rw [hd]
        rfl
      omega
    obtain ⟨h1, h2, h3⟩ :=
      telegramSendLoop_spec text text.toList.length text.toList
        (Nat.le_refl _) true
    refine ⟨?_, ?_, ?_⟩
    · intro s hs
      apply h1
      simpa [telegramSendMessage, hnle] using hs
    · simp only [telegramSendMessage, if_neg hnle, strConcat, h2]
      rfl
    · simp only [telegramSendMessage, if_neg hnle, h3]
      rw [if_pos ⟨by trivial, hne⟩]

/-- The length of a string built from a character list is that list's
length. -/
theorem string_length_mk (l : List Char) : (String.mk l).length = l.length := rfl

/-- Witness for `telegramSendMessage_spec`: a 2-character text is sent
as one message, and a 4097-character text is split with the
concatenation of its chunks equal to the original. -/
theorem telegramSendMessage_spec_witness :
    telegramSendMessage "hi" = (["hi"], [⟨"hi", true⟩]) ∧
    strConcat (telegramSendMessage (String.mk (List.replicate 4097 'a'))).1 =
      String.mk (List.replicate 4097 'a') :=
  ⟨(telegramSendMessage_spec "hi").1 (by decide),
   ((telegramSendMessage_spec (String.mk (List.replicate 4097 'a'))).2
      (by rw [string_length_mk, List.length_replicate]; decide)).2.1⟩

/-! ## Router lemmas -/

/-- Reading back a key just assigned. -/
theorem aget_aset_self (m : List (String × String)) (k v : String) :
    aget (aset m k v) k = v := by
  induction m with
  | nil => simp [aset, aget]
  | cons p rest ih =>
    obtain ⟨k', v'⟩ := p
    by_cases h : k' = k
    · simp [aset, aget, h]
    · simp [aset, aget, h, ih]

/-- The initial callback state has no output, no error, and no timer. -/
theorem pgmInit_flags (st : RouterState) (chatJid : String)
    (missed : List NewMessage) :
    (pgmInit st chatJid missed).outputSent = false ∧
    (pgmInit st chatJid missed).hadError = false ∧
    (pgmInit st chatJid missed).timer = none := ⟨rfl, rfl, rfl⟩

/-- The initial callback state starts from the claimed-and-persisted
cursor map. -/
theorem pgmInit_st (st : RouterState) (chatJid : String)
    (missed : List NewMessage) :
    (pgmInit st chatJid missed).st.lastTimestamp = st.lastTimestamp ∧
    (pgmInit st chatJid missed).st.lastAgentTimestamp
        = aset st.lastAgentTimestamp chatJid (lastTs missed) ∧
    (pgmInit st chatJid missed).st.db
        = ⟨st.lastTimestamp, aset st.lastAgentTimestamp chatJid (lastTs missed)⟩ :=
  ⟨rfl, rfl, rfl⟩

/-- The initial callback trace: persist, typing on, agent invocation. -/
theorem pgmInit_trace (st : RouterState) (chatJid : String)
    (missed : List NewMessage) :
    (pgmInit st chatJid missed).trace =
      [Event.persist ⟨st.lastTimestamp,
          aset st.lastAgentTimestamp chatJid (lastTs missed)⟩,
        Event.typing chatJid true,
        Event.invokeAgent chatJid (formatMessages missed)] := rfl

/-- A falsy `result` payload yields no visible text. -/
theorem recordVisibleText_none (r : ContainerOutput)
    (h : resultTruthy r = false) : recordVisibleText r = none := by
  simp [recordVisibleText, h]

/-- The events appended for a record contain exactly one timer re-arm
when the payload is truthy and none otherwise, and every re-arm is the
`IDLE_TIMEOUT` close-stdin arm. -/
theorem recordEvents_arm (cfg : Config) (chatJid : String)
    (r : ContainerOutput) :
    ((recordEvents cfg chatJid r).filter isArmEvent).length
        = (if resultTruthy r then 1 else 0) ∧
    ∀ e ∈ recordEvents cfg chatJid r, isArmEvent e = true →
      e = Event.armTimer cfg.idleTimeout (TimerAction.closeStdinAct chatJid) := by
  unfold recordEvents
  cases hv : recordVisibleText r <;>
    by_cases ht : resultTruthy r <;>
      by_cases hs : r.status == "success" <;>
        simp [ht, hs, isArmEvent]

/-- Step characterization of the streaming-output callback. -/
theorem onStreamRecord_spec (cfg : Config) (gf jid : String)
    (cs : CallbackState) (r : ContainerOutput) :
    (onStreamRecord cfg gf jid cs r).outputSent
        = (cs.outputSent || (recordVisibleText r).isSome) ∧
    (onStreamRecord cfg gf jid cs r).hadError
        = (cs.hadError || (r.status == "error")) ∧
    (onStreamRecord cfg gf jid cs r).timer
        = (if resultTruthy r then
            some (cfg.idleTimeout, TimerAction.closeStdinAct jid)
           else cs.timer) ∧
    (onStreamRecord cfg gf jid cs r).st.lastTimestamp = cs.st.lastTimestamp ∧
    (onStreamRecord cfg gf jid cs r).st.lastAgentTimestamp
        = cs.st.lastAgentTimestamp ∧
    (onStreamRecord cfg gf jid cs r).st.db = cs.st.db ∧
    (onStreamRecord cfg gf jid cs r).trace
        = cs.trace ++ recordEvents cfg jid r := by
  unfold onStreamRecord recordEvents
  cases hsid : r.newSessionId <;>
    cases hv : recordVisibleText r <;>
      by_cases ht : resultTruthy r <;>
        by_cases hs : r.status == "success" <;>
          by_cases he : r.status == "error" <;>
            simp_all [recordVisibleText_none]

/-- Characterization of folding the streaming callback over a whole
script of records. -/
theorem runFold_spec (cfg : Config) (gf jid : String)
    (script : List ContainerOutput) :
    ∀ cs : CallbackState,
      (script.foldl (onStreamRecord cfg gf jid) cs).outputSent
          = (cs.outputSent || script.any fun r => (recordVisibleText r).isSome) ∧
      (script.foldl (onStreamRecord cfg gf jid) cs).hadError
          = (cs.hadError || script.any fun r => r.status == "error") ∧
      (script.foldl (onStreamRecord cfg gf jid) cs).timer
          = (if script.any resultTruthy then
              some (cfg.idleTimeout, TimerAction.closeStdinAct jid)
             else cs.timer) ∧
      (script.foldl (onStreamRecord cfg gf jid) cs).st.lastTimestamp
          = cs.st.lastTimestamp ∧
      (script.foldl (onStreamRecord cfg gf jid) cs).st.lastAgentTimestamp
          = cs.st.lastAgentTimestamp ∧
      (script.foldl (onStreamRecord cfg gf jid) cs).st.db = cs.st.db ∧
      ∃ evs, (script.foldl (onStreamRecord cfg gf jid) cs).trace
            = cs.trace ++ evs ∧
        (evs.filter isArmEvent).length = (script.filter resultTruthy).length ∧
        ∀ e ∈ evs, isArmEvent e = true →
          e = Event.armTimer cfg.idleTimeout (TimerAction.closeStdinAct jid) := by
  induction script with
  | nil =>
    intro cs
    refine ⟨by simp, by simp, by simp, rfl, rfl, rfl, [], by simp, by simp, by simp⟩
  | cons r rs ih =>
    intro cs
    obtain ⟨s1, s2, s3, s4, s5, s6, s7⟩ := onStreamRecord_spec cfg gf jid cs r
    obtain ⟨i1, i2, i3, i4, i5, i6, evs, ievs, icnt, iarm⟩ :=
      ih (onStreamRecord cfg gf jid cs r)
    obtain ⟨c1, c2⟩ := recordEvents_arm cfg jid r
    refine ⟨?_, ?_, ?_, ?_, ?_, ?_, recordEvents cfg jid r ++ evs, ?_, ?_, ?_⟩
    · rw [List.foldl_cons, i1, s1]
      simp [Bool.or_assoc]
    · rw [List.foldl_cons, i2, s2]
      simp [Bool.or_assoc]
    · rw [List.foldl_cons, i3, s3]
      by_cases ht : resultTruthy r <;> by_cases hrs : rs.any resultTruthy <;>
        simp [ht, hrs]
    · rw [List.foldl_cons, i4, s4]
    · rw [List.foldl_cons, i5, s5]
    · rw [List.foldl_cons, i6, s6]
    · rw [List.foldl_cons, ievs, s7, List.append_assoc]
    · rw [List.filter_append, List.length_append, icnt, List.filter_cons]
      by_cases ht : resultTruthy r
      · simp [ht, c1]
        omega
      · simp [ht, c1]
    · intro e he harm
      rcases List.mem_append.mp he with h | h
      · exact c2 e h harm
      · exact iarm e h harm

/-- The terminal session update touches only the session map. -/
theorem termSessionUpdate_parts (gf : String) (terminal : ContainerOutput)
    (crashed : Bool) (cs : CallbackState) :
    (termSessionUpdate gf terminal crashed cs).outputSent = cs.outputSent ∧
    (termSessionUpdate gf terminal crashed cs).hadError = cs.hadError ∧
    (termSessionUpdate gf terminal crashed cs).timer = cs.timer ∧
    (termSessionUpdate gf terminal crashed cs).trace = cs.trace ∧
    (termSessionUpdate gf terminal crashed cs).st.lastTimestamp
        = cs.st.lastTimestamp ∧
    (termSessionUpdate gf terminal crashed cs).st.lastAgentTimestamp
        = cs.st.lastAgentTimestamp ∧
    (termSessionUpdate gf terminal crashed cs).st.db = cs.st.db := by
  unfold termSessionUpdate
  cases crashed <;> cases terminal.newSessionId <;> simp

/-- Under a registered group, an owned JID, and a non-empty pending set,
`processGroupMessages` runs `pgmRun` on the pending batch. -/
theorem processGroupMessages_run (cfg : Config)
    (groups : List (String × RegisteredGroup)) (store : List NewMessage)
    (script : List ContainerOutput) (terminal : ContainerOutput)
    (crashed : Bool) (st : RouterState) (chatJid : String)
    (g : RegisteredGroup) (hreg : groups.lookup chatJid = some g)
    (hch : cfg.channelOwns chatJid = true)
    (hmiss : (getMessagesSince store chatJid
      (aget st.lastAgentTimestamp chatJid) cfg.assistantName).isEmpty = false) :
    processGroupMessages cfg groups store script terminal crashed st chatJid =
      pgmRun cfg g script terminal crashed st chatJid
        (getMessagesSince store chatJid (aget st.lastAgentTimestamp chatJid)
          cfg.assistantName) := by
  unfold processGroupMessages
  rw [hreg]
  simp [hch, hmiss]

/-- On terminal error with no visible output, `pgmRun` rolls the cursor
back, persists, and returns false. -/
theorem pgmRun_error_rollback (cfg : Config) (g : RegisteredGroup)
    (script : List ContainerOutput) (terminal : ContainerOutput)
    (crashed : Bool) (st : RouterState) (chatJid : String)
    (missed : List NewMessage)
    (herr : crashed = true ∨ terminal.status = "error")
    (hnoout : ∀ r ∈ script, recordVisibleText r = none) :
    (pgmRun cfg g script terminal crashed st chatJid missed).ret = false ∧
    aget (pgmRun cfg g script terminal crashed st chatJid missed).st.lastAgentTimestamp
        chatJid = aget st.lastAgentTimestamp chatJid ∧
    (pgmRun cfg g script terminal crashed st chatJid missed).st.db =
      ⟨(pgmRun cfg g script terminal crashed st chatJid missed).st.lastTimestamp,
        (pgmRun cfg g script terminal crashed st chatJid missed).st.lastAgentTimestamp⟩ := by
  have hany : (script.any fun r => (recordVisibleText r).isSome) = false := by
    rw [List.any_eq_false]
    intro r hr
    simp [hnoout r hr]
  have hcond : (crashed || (terminal.status == "error")) = true := by
    rcases herr with h | h <;> simp [h]
  simp only [pgmRun, hcond]
  obtain ⟨f1, f2, f3, f4, f5, f6, evs, fevs, fcnt, farm⟩ :=
    runFold_spec cfg g.folder chatJid script _
  obtain ⟨t1, t2, t3, t4, t5, t6, t7⟩ := termSessionUpdate_parts g.folder terminal crashed _
  rw [t1, f1] at *
  simp only [(pgmInit_flags st chatJid missed).1, hany, Bool.or_false,
    Bool.false_or] at *
  simp only [if_true, Bool.true_or, if_pos]
  refine ⟨rfl, ?_, ?_⟩
  · simp [saveState, aget_aset_self]
  · simp [saveState]

/-! ## C1, C2, C6: `processGroupMessages` outcomes -/

/-- C1: for every group JID, if `processGroupMessages` ends with
terminal status `error` and no output was sent to the user, then
`last_agent_timestamp[jid]` is restored to the value it held before the
run (`previousCursor`), the restored state is persisted, and the
function returns false. -/
theorem processGroupMessages_error_rollback (cfg : Config)
    (groups : List (String × RegisteredGroup)) (store : List NewMessage)
    (script : List ContainerOutput) (terminal : ContainerOutput)
    (crashed : Bool) (st : RouterState) (chatJid : String)
    (g : RegisteredGroup) (hreg : groups.lookup chatJid = some g)
    (hch : cfg.channelOwns chatJid = true)
    (hmiss : (getMessagesSince store chatJid
      (aget st.lastAgentTimestamp chatJid) cfg.assistantName).isEmpty = false)
    (herr : crashed = true ∨ terminal.status = "error")
    (hnoout : ∀ r ∈ script, recordVisibleText r = none) :
    (processGroupMessages cfg groups store script terminal crashed st chatJid).ret
        = false ∧
    aget (processGroupMessages cfg groups store script terminal crashed st
        chatJid).st.lastAgentTimestamp chatJid
      = aget st.lastAgentTimestamp chatJid ∧
    (processGroupMessages cfg groups store script terminal crashed st chatJid).st.db
      = ⟨(processGroupMessages cfg groups store script terminal crashed st
            chatJid).st.lastTimestamp,
          (processGroupMessages cfg groups store script terminal crashed st
            chatJid).st.lastAgentTimestamp⟩ := by
  rw [processGroupMessages_run cfg groups store script terminal crashed st
    chatJid g hreg hch hmiss]
  exact pgmRun_error_rollback cfg g script terminal crashed st chatJid _ herr hnoout

/-- Witness for `processGroupMessages_error_rollback`: two pending
messages, an agent run with no streamed records and terminal `error`. -/
theorem processGroupMessages_error_rollback_witness :
    (processGroupMessages wCfg wGroups wStore [] ⟨"error", none, none, none⟩
        false wSt "tg:100").ret = false ∧
    aget (processGroupMessages wCfg wGroups wStore [] ⟨"error", none, none, none⟩
        false wSt "tg:100").st.lastAgentTimestamp "tg:100"
      = aget wSt.lastAgentTimestamp "tg:100" ∧
    (processGroupMessages wCfg wGroups wStore [] ⟨"error", none, none, none⟩
        false wSt "tg:100").st.db
      = ⟨(processGroupMessages wCfg wGroups wStore [] ⟨"error", none, none, none⟩
            false wSt "tg:100").st.lastTimestamp,
          (processGroupMessages wCfg wGroups wStore [] ⟨"error", none, none, none⟩
            false wSt "tg:100").st.lastAgentTimestamp⟩ :=
  processGroupMessages_error_rollback wCfg wGroups wStore []
    ⟨"error", none, none, none⟩ false wSt "tg:100" wGroup (by decide) (by decide)
    (by decide) (Or.inr rfl) (by intro r hr; simp at hr)

/-- On terminal error after visible output was sent, `pgmRun` keeps the
advanced cursor and returns true. -/
theorem pgmRun_error_after_output (cfg : Config) (g : RegisteredGroup)
    (script : List ContainerOutput) (terminal : ContainerOutput)
    (crashed : Bool) (st : RouterState) (chatJid : String)
    (missed : List NewMessage)
    (herr : crashed = true ∨ terminal.status = "error")
    (hsent : (script.any fun r => (recordVisibleText r).isSome) = true) :
    (pgmRun cfg g script terminal crashed st chatJid missed).ret = true ∧
    aget (pgmRun cfg g script terminal crashed st chatJid missed).st.lastAgentTimestamp
        chatJid = lastTs missed ∧
    aget (pgmRun cfg g script terminal crashed st chatJid
        missed).st.db.last_agent_timestamp chatJid = lastTs missed := by
  have hcond : (crashed || (terminal.status == "error")) = true := by
    rcases herr with h | h <;> simp [h]
  simp only [pgmRun, hcond]
  obtain ⟨f1, f2, f3, f4, f5, f6, evs, fevs, fcnt, farm⟩ :=
    runFold_spec cfg g.folder chatJid script _
  obtain ⟨t1, t2, t3, t4, t5, t6, t7⟩ :=
    termSessionUpdate_parts g.folder terminal crashed _
  rw [t1, f1] at *
  simp only [(pgmInit_flags st chatJid missed).1, hsent, Bool.or_true,
    Bool.false_or] at *
  simp only [if_true, Bool.true_or, if_pos]
  refine ⟨rfl, ?_, ?_⟩
  · simp [t6, f5, (pgmInit_st st chatJid missed).2.1, aget_aset_self]
  · simp [t7, f6, (pgmInit_st st chatJid missed).2.2, aget_aset_self]

/-- C2: for every group JID, if `processGroupMessages` ends with
terminal status `error` but at least one non-empty output was already
sent to the channel (`outputSentToUser` is true), the cursor
`last_agent_timestamp[jid]` is not rolled back — it stays at the last
pending message's timestamp, in memory and persisted — and the function
returns true. -/
theorem processGroupMessages_error_after_output (cfg : Config)
    (groups : List (String × RegisteredGroup)) (store : List NewMessage)
    (script : List ContainerOutput) (terminal : ContainerOutput)
    (crashed : Bool) (st : RouterState) (chatJid : String)
    (g : RegisteredGroup) (hreg : groups.lookup chatJid = some g)
    (hch : cfg.channelOwns chatJid = true)
    (hmiss : (getMessagesSince store chatJid
      (aget st.lastAgentTimestamp chatJid) cfg.assistantName).isEmpty = false)
    (herr : crashed = true ∨ terminal.status = "error")
    (hsent : (script.any fun r => (recordVisibleText r).isSome) = true) :
    (processGroupMessages cfg groups store script terminal crashed st chatJid).ret
        = true ∧
    aget (processGroupMessages cfg groups store script terminal crashed st
        chatJid).st.lastAgentTimestamp chatJid
      = lastTs (getMessagesSince store chatJid
          (aget st.lastAgentTimestamp chatJid) cfg.assistantName) ∧
    aget (processGroupMessages cfg groups store script terminal crashed st
        chatJid).st.db.last_agent_timestamp chatJid
      = lastTs (getMessagesSince store chatJid
          (aget st.lastAgentTimestamp chatJid) cfg.assistantName) := by
  rw [processGroupMessages_run cfg groups store script terminal crashed st
    chatJid g hreg hch hmiss]
  exact pgmRun_error_after_output cfg g script terminal crashed st chatJid _
    herr hsent

/-- Witness for `processGroupMessages_error_after_output`: one streamed
record delivers "hello", then the run terminates with an error; the
cursor stays at timestamp 2. -/
theorem processGroupMessages_error_after_output_witness :
    (processGroupMessages wCfg wGroups wStore
        [⟨"success", some "hello", none, none⟩] ⟨"error", none, none, none⟩
        false wSt "tg:100").ret = true ∧
    aget (processGroupMessages wCfg wGroups wStore
        [⟨"success", some "hello", none, none⟩] ⟨"error", none, none, none⟩
        false wSt "tg:100").st.lastAgentTimestamp "tg:100"
      = lastTs (getMessagesSince wStore "tg:100"
          (aget wSt.lastAgentTimestamp "tg:100") wCfg.assistantName) ∧
    aget (processGroupMessages wCfg wGroups wStore
        [⟨"success", some "hello", none, none⟩] ⟨"error", none, none, none⟩
        false wSt "tg:100").st.db.last_agent_timestamp "tg:100"
      = lastTs (getMessagesSince wStore "tg:100"
          (aget wSt.lastAgentTimestamp "tg:100") wCfg.assistantName) :=
  processGroupMessages_error_after_output wCfg wGroups wStore
    [⟨"success", some "hello", none, none⟩] ⟨"error", none, none, none⟩
    false wSt "tg:100" wGroup (by decide) (by decide) (by decide) (Or.inr rfl)
    (by decide)

/-- C6: calling `processGroupMessages(J)` when
`getMessagesSince(J, last_agent_timestamp[J])` is empty returns true and
leaves the router state — both `last_timestamp` and
`last_agent_timestamp`, in memory and persisted — unchanged, with an
empty side-effect trace (no agent started, nothing persisted). -/
theorem processGroupMessages_no_pending (cfg : Config)
    (groups : List (String × RegisteredGroup)) (store : List NewMessage)
    (script : List ContainerOutput) (terminal : ContainerOutput)
    (crashed : Bool) (st : RouterState) (chatJid : String)
    (h : getMessagesSince store chatJid (aget st.lastAgentTimestamp chatJid)
      cfg.assistantName = []) :
    processGroupMessages cfg groups store script terminal crashed st chatJid
      = ⟨true, st, none, []⟩ := by
  unfold processGroupMessages
  cases hreg : groups.lookup chatJid with
  | none => rfl
  | some g =>
    by_cases hch : cfg.channelOwns chatJid
    · simp [hch, h]
    · simp [hch]

/-- Witness for `processGroupMessages_no_pending`: an empty store has no
pending messages. -/
theorem processGroupMessages_no_pending_witness :
    processGroupMessages wCfg wGroups [] [] ⟨"success", none, none, none⟩
      false wSt "tg:100" = ⟨true, wSt, none, []⟩ :=
  processGroupMessages_no_pending wCfg wGroups [] []
    ⟨"success", none, none, none⟩ false wSt "tg:100" (by decide)

/-- Every branch of `pgmRun` yields a trace that extends the run trace
with the typing-off indicator, the timer clear (when armed), and
arm-free bookkeeping, and leaves the timer disarmed. -/
theorem pgmResult_cases (cfg : Config) (g : RegisteredGroup)
    (script : List ContainerOutput) (terminal : ContainerOutput)
    (crashed : Bool) (st : RouterState) (chatJid : String)
    (missed : List NewMessage) :
    ∃ extra : List Event,
      (pgmRun cfg g script terminal crashed st chatJid missed).trace =
        (termSessionUpdate g.folder terminal crashed
            (script.foldl (onStreamRecord cfg g.folder chatJid)
              (pgmInit st chatJid missed))).trace ++
          [Event.typing chatJid false] ++
          (if (termSessionUpdate g.folder terminal crashed
                (script.foldl (onStreamRecord cfg g.folder chatJid)
                  (pgmInit st chatJid missed))).timer.isSome then
            [Event.clearTimer]
           else []) ++ extra ∧
      extra.filter isArmEvent = [] ∧
      (pgmRun cfg g script terminal crashed st chatJid missed).timer = none := by
  simp only [pgmRun]
  split
  next hcb =>
    split
    next hout =>
      split
      next hsent => exact ⟨[], by simp, by simp, rfl⟩
      next hsent =>
        refine ⟨_, rfl, ?_, rfl⟩
        simp [isArmEvent]
    next hout => simp at hout
  next hcb =>
    split
    next hout =>
      split
      next hsent => exact ⟨[], by simp, by simp, rfl⟩
      next hsent =>
        refine ⟨_, rfl, ?_, rfl⟩
        simp [isArmEvent]
    next hout => exact ⟨[], by simp, by simp, rfl⟩

/-- Trace shape of `pgmRun`: the persisted cursor claim, typing-on, and
the agent invocation open the trace; the idle timer is re-armed exactly
once per truthy streamed record, always with `IDLE_TIMEOUT` and the
close-stdin action; a clear follows when it was armed; and the timer is
disarmed at termination. -/
theorem pgmRun_trace (cfg : Config) (g : RegisteredGroup)
    (script : List ContainerOutput) (terminal : ContainerOutput)
    (crashed : Bool) (st : RouterState) (chatJid : String)
    (missed : List NewMessage) :
    ∃ evs tail,
      (pgmRun cfg g script terminal crashed st chatJid missed).trace =
        Event.persist ⟨st.lastTimestamp,
            aset st.lastAgentTimestamp chatJid (lastTs missed)⟩ ::
        Event.typing chatJid true ::
        Event.invokeAgent chatJid (formatMessages missed) :: (evs ++ tail) ∧
      (evs.filter isArmEvent).length = (script.filter resultTruthy).length ∧
      (∀ e ∈ evs, isArmEvent e = true →
        e = Event.armTimer cfg.idleTimeout (TimerAction.closeStdinAct chatJid)) ∧
      tail.filter isArmEvent = [] ∧
      (script.any resultTruthy = true → Event.clearTimer ∈ tail) ∧
      (pgmRun cfg g script terminal crashed st chatJid missed).timer = none := by
  obtain ⟨extra, htr, hfil, htim⟩ :=
    pgmResult_cases cfg g script terminal crashed st chatJid missed
  obtain ⟨f1, f2, f3, f4, f5, f6, evs, fevs, fcnt, farm⟩ :=
    runFold_spec cfg g.folder chatJid script (pgmInit st chatJid missed)
  obtain ⟨t1, t2, t3, t4, t5, t6, t7⟩ :=
    termSessionUpdate_parts g.folder terminal crashed
      (script.foldl (onStreamRecord cfg g.folder chatJid)
        (pgmInit st chatJid missed))
  refine ⟨evs,
    [Event.typing chatJid false] ++
      (if (termSessionUpdate g.folder terminal crashed
            (script.foldl (onStreamRecord cfg g.folder chatJid)
              (pgmInit st chatJid missed))).timer.isSome then
        [Event.clearTimer]
       else []) ++ extra, ?_, fcnt, farm, ?_, ?_, htim⟩
  · rw [htr, t4, fevs, pgmInit_trace]
    simp
  · rw [List.filter_append, List.filter_append, hfil]
    rw [t3, f3, (pgmInit_flags st chatJid missed).2.2]
    by_cases hat : script.any resultTruthy = true <;>
      simp [hat, isArmEvent]
  · intro hat
    rw [t3, f3, (pgmInit_flags st chatJid missed).2.2]
    simp [hat]

/-! ## C3: cursor claim precedes the run; C7: idle-timer discipline -/

/-- C3: in `processGroupMessages`, when the pending set is non-empty,
the cursor `last_agent_timestamp[jid]` is advanced to the timestamp of
the last pending message and persisted strictly before the Agent Runner
is invoked and before any channel send for this batch: the persistence
of the advanced cursor map is the very first side effect of the run,
followed by the typing indicator and the agent invocation; every other
event (in particular every channel send) comes after. -/
theorem processGroupMessages_claim_first (cfg : Config)
    (groups : List (String × RegisteredGroup)) (store : List NewMessage)
    (script : List ContainerOutput) (terminal : ContainerOutput)
    (crashed : Bool) (st : RouterState) (chatJid : String)
    (g : RegisteredGroup) (hreg : groups.lookup chatJid = some g)
    (hch : cfg.channelOwns chatJid = true)
    (hmiss : (getMessagesSince store chatJid
      (aget st.lastAgentTimestamp chatJid) cfg.assistantName).isEmpty = false) :
    ∃ rest,
      (processGroupMessages cfg groups store script terminal crashed st
          chatJid).trace =
        Event.persist ⟨st.lastTimestamp,
            aset st.lastAgentTimestamp chatJid
              (lastTs (getMessagesSince store chatJid
                (aget st.lastAgentTimestamp chatJid) cfg.assistantName))⟩ ::
        Event.typing chatJid true ::
        Event.invokeAgent chatJid
          (formatMessages (getMessagesSince store chatJid
            (aget st.lastAgentTimestamp chatJid) cfg.assistantName)) :: rest ∧
      aget (aset st.lastAgentTimestamp chatJid
          (lastTs (getMessagesSince store chatJid
            (aget st.lastAgentTimestamp chatJid) cfg.assistantName))) chatJid
        = lastTs (getMessagesSince store chatJid
            (aget st.lastAgentTimestamp chatJid) cfg.assistantName) := by
  rw [processGroupMessages_run cfg groups store script terminal crashed st
    chatJid g hreg hch hmiss]
  obtain ⟨evs, tail, htr, -, -, -, -, -⟩ :=
    pgmRun_trace cfg g script terminal crashed st chatJid _
  exact ⟨evs ++ tail, htr, aget_aset_self _ _ _⟩

/-- Witness for `processGroupMessages_claim_first` at the concrete
two-message store. -/
theorem processGroupMessages_claim_first_witness :
    ∃ rest,
      (processGroupMessages wCfg wGroups wStore []
          ⟨"success", none, none, none⟩ false wSt "tg:100").trace =
        Event.persist ⟨wSt.lastTimestamp,
            aset wSt.lastAgentTimestamp "tg:100"
              (lastTs (getMessagesSince wStore "tg:100"
                (aget wSt.lastAgentTimestamp "tg:100") wCfg.assistantName))⟩ ::
        Event.typing "tg:100" true ::
        Event.invokeAgent "tg:100"
          (formatMessages (getMessagesSince wStore "tg:100"
            (aget wSt.lastAgentTimestamp "tg:100") wCfg.assistantName)) :: rest ∧
      aget (aset wSt.lastAgentTimestamp "tg:100"
          (lastTs (getMessagesSince wStore "tg:100"
            (aget wSt.lastAgentTimestamp "tg:100") wCfg.assistantName))) "tg:100"
        = lastTs (getMessagesSince wStore "tg:100"
            (aget wSt.lastAgentTimestamp "tg:100") wCfg.assistantName) :=
  processGroupMessages_claim_first wCfg wGroups wStore []
    ⟨"success", none, none, none⟩ false wSt "tg:100" wGroup (by decide)
    (by decide) (by decide)

/-- C7 (amended): during a run of `processGroupMessages`, the idle timer
is (re)armed with delay `IDLE_TIMEOUT` on each streamed record that
carries a truthy (non-null, non-empty) `result` payload — not on every
streamed record; on expiry the armed action is `queue.closeStdin(jid)`
and never a kill; the timer is cleared on termination when it was armed
and ends disarmed. -/
theorem processGroupMessages_idle_timer (cfg : Config)
    (groups : List (String × RegisteredGroup)) (store : List NewMessage)
    (script : List ContainerOutput) (terminal : ContainerOutput)
    (crashed : Bool) (st : RouterState) (chatJid : String)
    (g : RegisteredGroup) (hreg : groups.lookup chatJid = some g)
    (hch : cfg.channelOwns chatJid = true)
    (hmiss : (getMessagesSince store chatJid
      (aget st.lastAgentTimestamp chatJid) cfg.assistantName).isEmpty = false) :
    (((processGroupMessages cfg groups store script terminal crashed st
          chatJid).trace.filter isArmEvent).length
        = (script.filter resultTruthy).length) ∧
    (∀ e ∈ (processGroupMessages cfg groups store script terminal crashed st
        chatJid).trace, isArmEvent e = true →
      e = Event.armTimer cfg.idleTimeout (TimerAction.closeStdinAct chatJid)) ∧
    (script.any resultTruthy = true →
      Event.clearTimer ∈ (processGroupMessages cfg groups store script terminal
        crashed st chatJid).trace) ∧
    (processGroupMessages cfg groups store script terminal crashed st
        chatJid).timer = none := by
  rw [processGroupMessages_run cfg groups store script terminal crashed st
    chatJid g hreg hch hmiss]
  obtain ⟨evs, tail, htr, hcnt, harm, htail, hclr, htim⟩ :=
    pgmRun_trace cfg g script terminal crashed st chatJid _
  refine ⟨?_, ?_, ?_, htim⟩
  · rw [htr]
    simp [isArmEvent, List.filter_append, hcnt, htail]
  · intro e he harm'
    rw [htr] at he
    simp only [List.mem_cons, List.mem_append] at he
    rcases he with h | h | h | h | h
    · subst h; simp [isArmEvent] at harm'
    · subst h; simp [isArmEvent] at harm'
    · subst h; simp [isArmEvent] at harm'
    · exact harm e h harm'
    · exact absurd harm' (List.filter_eq_nil_iff.mp htail e h)
  · intro hat
    rw [htr]
    have := hclr hat
    simp only [List.mem_cons, List.mem_append]
    tauto

/-- Witness for `processGroupMessages_idle_timer`: a run with one truthy
record arms the timer exactly once, with the close-stdin action, and
ends disarmed with a clear in the trace. -/
theorem processGroupMessages_idle_timer_witness :
    (((processGroupMessages wCfg wGroups wStore
          [⟨"success", some "hello", none, none⟩]
          ⟨"success", none, none, none⟩ false wSt "tg:100").trace.filter
        isArmEvent).length
      = ([(⟨"success", some "hello", none, none⟩ : ContainerOutput)].filter
          resultTruthy).length) ∧
    (([(⟨"success", some "hello", none, none⟩ : ContainerOutput)].any
        resultTruthy = true) →
      Event.clearTimer ∈ (processGroupMessages wCfg wGroups wStore
        [⟨"success", some "hello", none, none⟩]
        ⟨"success", none, none, none⟩ false wSt "tg:100").trace) ∧
    (processGroupMessages wCfg wGroups wStore
        [⟨"success", some "hello", none, none⟩]
        ⟨"success", none, none, none⟩ false wSt "tg:100").timer = none :=
  ⟨(processGroupMessages_idle_timer wCfg wGroups wStore
      [⟨"success", some "hello", none, none⟩] ⟨"success", none, none, none⟩
      false wSt "tg:100" wGroup (by decide) (by decide) (by decide)).1,
   (processGroupMessages_idle_timer wCfg wGroups wStore
      [⟨"success", some "hello", none, none⟩] ⟨"success", none, none, none⟩
      false wSt "tg:100" wGroup (by decide) (by decide) (by decide)).2.2.1,
   (processGroupMessages_idle_timer wCfg wGroups wStore
      [⟨"success", some "hello", none, none⟩] ⟨"success", none, none, none⟩
      false wSt "tg:100" wGroup (by decide) (by decide) (by decide)).2.2.2⟩

/-- Counterexample to C7 as stated: the idle timer is NOT re-armed on
every streamed record — a run whose single streamed record is a
session-update marker (`result` null) arms the timer zero times, not
once. -/
theorem processGroupMessages_idle_timer_cex :
    ¬ (((processGroupMessages wCfg wGroups wStore
          [⟨"progress", none, none, none⟩] ⟨"success", none, none, none⟩
          false wSt "tg:100").trace.filter isArmEvent).length
        = [(⟨"progress", none, none, none⟩ : ContainerOutput)].length) := by
  decide

/-! ## Lexicographic-order lemmas for the timestamp comparisons -/

/-- A list is never lexicographically below itself. -/
theorem listLt_irrefl (a : List Char) : listLt a a = false := by
  induction a with
  | nil => rfl
  | cons c tl ih => simp [listLt, ih]

/-- Lexicographic strictness is asymmetric. -/
theorem listLt_asymm : ∀ a b, listLt a b = true → listLt b a = false := by
  intro a
  induction a with
  | nil =>
    intro b h
    cases b with
    | nil => simp [listLt] at h
    | cons d dl => rfl
  | cons c tl ih =>
    intro b h
    cases b with
    | nil => simp [listLt] at h
    | cons d dl =>
      simp only [listLt] at h ⊢
      by_cases h1 : c.toNat < d.toNat
      · have h2 : ¬ d.toNat < c.toNat := by omega
        simp [h1, h2]
      · by_cases h2 : d.toNat < c.toNat
        · simp [h1, h2] at h
        · simp only [h1, h2, if_false] at h ⊢
          exact ih dl h

/-- Transitivity of the non-strict order (`listLt y x = false` read as
`x ≤ y`). -/
theorem listLt_nf_trans : ∀ c a b, listLt b a = false → listLt c b = false →
    listLt c a = false := by
  intro c
  induction c with
  | nil =>
    intro a b h1 h2
    cases b with
    | nil => exact h1
    | cons y yl => simp [listLt] at h2
  | cons e el ih =>
    intro a b h1 h2
    cases a with
    | nil => rfl
    | cons x xl =>
      cases b with
      | nil => simp [listLt] at h1
      | cons y yl =>
        simp only [listLt] at h1 h2 ⊢
        by_cases hyx : y.toNat < x.toNat
        · simp [hyx] at h1
        · by_cases hey : e.toNat < y.toNat
          · simp [hey] at h2
          · by_cases hex : e.toNat < x.toNat
            · omega
            · by_cases hxe : x.toNat < e.toNat
              · simp [hex, hxe]
              · have hxy : ¬ x.toNat < y.toNat := by omega
                have hye : ¬ y.toNat < e.toNat := by omega
                simp only [hyx, hxy, if_false] at h1
                simp only [hey, hye, if_false] at h2
                simp only [hex, hxe, if_false]
                exact ih xl yl h1 h2

/-- From `a ≤ b` (as `listLt b a = false`) and `b < c` conclude
`a < c`. -/
theorem listLt_cross : ∀ a b c, listLt b a = false → listLt b c = true →
    listLt a c = true := by
  intro a
  induction a with
  | nil =>
    intro b c h1 h2
    cases c with
    | nil =>
      cases b with
      | nil => simp [listLt] at h2
      | cons y yl => simp [listLt] at h2
    | cons e el => rfl
  | cons x xl ih =>
    intro b c h1 h2
    cases b with
    | nil => simp [listLt] at h1
    | cons y yl =>
      cases c with
      | nil => simp [listLt] at h2
      | cons e el =>
        simp only [listLt] at h1 h2 ⊢
        by_cases hyx : y.toNat < x.toNat
        · simp [hyx] at h1
        · by_cases hye : y.toNat < e.toNat
          · have hxe : x.toNat < e.toNat := by omega
            simp [hxe]
          · by_cases hey : e.toNat < y.toNat
            · simp [hye, hey] at h2
            · by_cases hxe : x.toNat < e.toNat
              · simp [hxe]
              · by_cases hex : e.toNat < x.toNat
                · omega
                · have hxy : ¬ x.toNat < y.toNat := by omega
                  simp only [hyx, hxy, if_false] at h1
                  simp only [hye, hey, if_false] at h2
                  simp only [hxe, hex, if_false]
                  exact ih yl el h1 h2

/-- Reflexivity of the non-strict string order. -/
theorem strLe_refl (a : String) : strLe a a = true := by
  simp [strLe, strLt, listLt_irrefl]

/-- Transitivity of the non-strict string order. -/
theorem strLe_trans (a b c : String) (h1 : strLe a b = true)
    (h2 : strLe b c = true) : strLe a c = true := by
  simp only [strLe, strLt, Bool.not_eq_true', Bool.not_eq_eq_eq_not,
    Bool.not_true] at h1 h2 ⊢
  exact listLt_nf_trans _ _ _ h1 h2

/-- The left argument is below the binary maximum. -/
theorem strLe_strMax_left (a b : String) : strLe a (strMax a b) = true := by
  unfold strMax
  by_cases h : strLt a b = true
  · simp only [h, if_true]
    simp only [strLe, strLt, Bool.not_eq_true']
    exact listLt_asymm _ _ h
  · simp only [h, if_false]
    exact strLe_refl a

/-! ## C4: per-group dispatch of the poll iteration -/

/-- C4: for a group with newly observed messages (`gm`, rows of the
store for this JID, non-bot, newer than the observation cursor
`lastObs`) and the invariant `last_agent_timestamp[jid] ≤ lastObs`, the
per-group body of the poll iteration formats exactly the set returned by
`getMessagesSince(jid, last_agent_timestamp[jid])` — which is non-empty
and subsumes the newly observed messages — and pipes it via
`queue.sendMessage`; on acceptance it advances `last_agent_timestamp[jid]`
to the last message's timestamp, persists it, and requests a typing
indicator; if rejected it calls `queue.enqueueMessageCheck(jid)` and does
not advance the agent cursor. -/
theorem dispatchGroup_spec (cfg : Config)
    (groups : List (String × RegisteredGroup)) (store : List NewMessage)
    (st : RouterState) (q : QueueState) (tr : List Event)
    (jid lastObs : String) (gm : List NewMessage) (g : RegisteredGroup)
    (hreg : groups.lookup jid = some g)
    (hch : cfg.channelOwns jid = true)
    (hgm : gm ≠ [])
    (hmem : ∀ m ∈ gm, m ∈ store ∧ m.chat_jid = jid ∧
      m.is_bot_message = false ∧ strLt lastObs m.timestamp = true)
    (hcur : strLe (aget st.lastAgentTimestamp jid) lastObs = true) :
    getMessagesSince store jid (aget st.lastAgentTimestamp jid)
        cfg.assistantName ≠ [] ∧
    (∀ m ∈ gm, m ∈ getMessagesSince store jid
        (aget st.lastAgentTimestamp jid) cfg.assistantName) ∧
    (queueSendMessage q jid = true →
      dispatchGroup cfg groups store (st, q, tr) (jid, gm) =
        (saveState { st with lastAgentTimestamp := aset st.lastAgentTimestamp jid (lastTs (getMessagesSince store jid (aget st.lastAgentTimestamp jid) cfg.assistantName)) },
         q,
         tr ++ [Event.pipe jid (formatMessages (getMessagesSince store jid
             (aget st.lastAgentTimestamp jid) cfg.assistantName)),
           Event.persist ⟨st.lastTimestamp,
             aset st.lastAgentTimestamp jid
               (lastTs (getMessagesSince store jid
                 (aget st.lastAgentTimestamp jid) cfg.assistantName))⟩,
           Event.typing jid true])) ∧
    (queueSendMessage q jid = false →
      dispatchGroup cfg groups store (st, q, tr) (jid, gm) =
        (st, enqueueMessageCheck q jid, tr ++ [Event.enqueueCheck jid])) := by
  have hsub : ∀ m ∈ gm, m ∈ getMessagesSince store jid
      (aget st.lastAgentTimestamp jid) cfg.assistantName := by
    intro m hm
    obtain ⟨hstore, hchat, hbot, hts⟩ := hmem m hm
    have h1 : listLt lastObs.toList (aget st.lastAgentTimestamp jid).toList
        = false := by
      simpa [strLe, strLt, Bool.not_eq_true'] using hcur
    have hlt : strLt (aget st.lastAgentTimestamp jid) m.timestamp = true :=
      listLt_cross _ _ _ h1 hts
    simp [getMessagesSince, List.mem_filter, hstore, hchat, hbot, hlt]
  have hne : getMessagesSince store jid (aget st.lastAgentTimestamp jid)
      cfg.assistantName ≠ [] := by
    cases gm with
    | nil => exact absurd rfl hgm
    | cons m tl => exact List.ne_nil_of_mem (hsub m (List.mem_cons_self m tl))
  have hlen : 0 < (getMessagesSince store jid (aget st.lastAgentTimestamp jid)
      cfg.assistantName).length := List.length_pos.mpr hne
  refine ⟨hne, hsub, ?_, ?_⟩
  · intro hq
    simp only [dispatchGroup]
    rw [hreg]
    simp [hch, hq, hlen, saveState]
  · intro hq
    simp only [dispatchGroup]
    rw [hreg]
    simp [hch, hq, hlen]

/-- Witness for `dispatchGroup_spec`: a newly observed message at
timestamp 2 with the agent cursor at the empty string; both the
acceptance and the rejection branch are exercised. -/
theorem dispatchGroup_spec_witness :
    (∀ m ∈ [wMsg2], m ∈ getMessagesSince wStore "tg:100"
        (aget wSt.lastAgentTimestamp "tg:100") wCfg.assistantName) ∧
    dispatchGroup wCfg wGroups wStore (wSt, wQLive, []) ("tg:100", [wMsg2]) =
      (saveState { wSt with lastAgentTimestamp := aset wSt.lastAgentTimestamp "tg:100" (lastTs (getMessagesSince wStore "tg:100" (aget wSt.lastAgentTimestamp "tg:100") wCfg.assistantName)) },
       wQLive,
       [Event.pipe "tg:100" (formatMessages (getMessagesSince wStore "tg:100"
           (aget wSt.lastAgentTimestamp "tg:100") wCfg.assistantName)),
         Event.persist ⟨wSt.lastTimestamp,
           aset wSt.lastAgentTimestamp "tg:100"
             (lastTs (getMessagesSince wStore "tg:100"
               (aget wSt.lastAgentTimestamp "tg:100") wCfg.assistantName))⟩,
         Event.typing "tg:100" true]) ∧
    dispatchGroup wCfg wGroups wStore (wSt, wQIdle, []) ("tg:100", [wMsg2]) =
      (wSt, enqueueMessageCheck wQIdle "tg:100",
        [Event.enqueueCheck "tg:100"]) :=
  ⟨(dispatchGroup_spec wCfg wGroups wStore wSt wQLive [] "tg:100" "1" [wMsg2]
      wGroup (by decide) (by decide) (by decide) (by decide) (by decide)).2.1,
   by
    have h := (dispatchGroup_spec wCfg wGroups wStore wSt wQLive [] "tg:100"
      "1" [wMsg2] wGroup (by decide) (by decide) (by decide) (by decide)
      (by decide)).2.2.1 (by decide)
    simpa using h,
   by
    have h := (dispatchGroup_spec wCfg wGroups wStore wSt wQIdle [] "tg:100"
      "1" [wMsg2] wGroup (by decide) (by decide) (by decide) (by decide)
      (by decide)).2.2.2 (by decide)
    simpa using h⟩

/-! ## C5: observation-cursor advance in the poll iteration -/

/-- The per-group dispatch never touches `last_timestamp` and only
appends to the trace. -/
theorem dispatchGroup_preserves (cfg : Config)
    (groups : List (String × RegisteredGroup)) (store : List NewMessage)
    (acc : RouterState × QueueState × List Event)
    (entry : String × List NewMessage) :
    (dispatchGroup cfg groups store acc entry).1.lastTimestamp
        = acc.1.lastTimestamp ∧
    ∃ ext, (dispatchGroup cfg groups store acc entry).2.2 = acc.2.2 ++ ext := by
  simp only [dispatchGroup]
  cases hl : groups.lookup entry.1 with
  | none => exact ⟨rfl, [], by simp⟩
  | some g =>
    by_cases hch : cfg.channelOwns entry.1 = true
    · simp only [hch, if_true]
      by_cases hq : queueSendMessage acc.2.1 entry.1 = true
      · simp only [hq, if_true]
        exact ⟨rfl, _, rfl⟩
      · simp only [hq, if_false]
        exact ⟨rfl, _, rfl⟩
    · simp only [hch, if_false]
      exact ⟨rfl, [], by simp⟩

/-- Folding the per-group dispatch never touches `last_timestamp` and
only appends to the trace. -/
theorem foldl_dispatchGroup_preserves (cfg : Config)
    (groups : List (String × RegisteredGroup)) (store : List NewMessage)
    (entries : List (String × List NewMessage)) :
    ∀ acc, (entries.foldl (dispatchGroup cfg groups store) acc).1.lastTimestamp
        = acc.1.lastTimestamp ∧
      ∃ ext, (entries.foldl (dispatchGroup cfg groups store) acc).2.2
          = acc.2.2 ++ ext := by
  induction entries with
  | nil =>
    intro acc
    exact ⟨rfl, [], by simp⟩
  | cons e es ih =>
    intro acc
    obtain ⟨d1, dext, hd⟩ := dispatchGroup_preserves cfg groups store acc e
    obtain ⟨i1, iext, hi⟩ := ih (dispatchGroup cfg groups store acc e)
    refine ⟨?_, dext ++ iext, ?_⟩
    · rw [List.foldl_cons, i1, d1]
    · rw [List.foldl_cons, hi, hd, List.append_assoc]

/-- The base value is below a fold of binary maxima over it. -/
theorem strLe_foldl_strMax (l : List NewMessage) :
    ∀ b : String,
      strLe b (l.foldl (fun acc m => strMax acc m.timestamp) b) = true := by
  induction l with
  | nil => intro b; exact strLe_refl b
  | cons m ms ih =>
    intro b
    rw [List.foldl_cons]
    exact strLe_trans _ _ _ (strLe_strMax_left b m.timestamp)
      (ih (strMax b m.timestamp))

/-- C5: on each poll iteration, if the set of newly observed messages is
non-empty, the Router immediately sets `last_timestamp` to the maximum
observed timestamp (`newTimestamp`) and persists it — the persistence is
the first event of the iteration's trace, before any per-group dispatch
event — and consequently `last_timestamp` never decreases across loop
iterations. -/
theorem pollIteration_spec (cfg : Config)
    (groups : List (String × RegisteredGroup)) (store : List NewMessage)
    (q : QueueState) (st : RouterState) :
    ((getNewMessages store (groups.map (·.1)) st.lastTimestamp
        cfg.assistantName).1 ≠ [] →
      (pollIteration cfg groups store q st).1.lastTimestamp
          = (getNewMessages store (groups.map (·.1)) st.lastTimestamp
              cfg.assistantName).2 ∧
      ∃ rest, (pollIteration cfg groups store q st).2.2 =
        Event.persist ⟨(getNewMessages store (groups.map (·.1))
            st.lastTimestamp cfg.assistantName).2,
          st.lastAgentTimestamp⟩ :: rest) ∧
    strLe st.lastTimestamp
      (pollIteration cfg groups store q st).1.lastTimestamp = true := by
  by_cases hne : (getNewMessages store (groups.map (·.1)) st.lastTimestamp
      cfg.assistantName).1 = []
  · constructor
    · intro h
      exact absurd hne h
    · have : pollIteration cfg groups store q st = (st, q, []) := by
        simp [pollIteration, hne]
      rw [this]
      exact strLe_refl _
  · have hemp : (getNewMessages store (groups.map (·.1)) st.lastTimestamp
        cfg.assistantName).1.isEmpty = false := by
      simpa [List.isEmpty_iff] using hne
    obtain ⟨p1, pext, hp⟩ := foldl_dispatchGroup_preserves cfg groups store
      (groupByJid (getNewMessages store (groups.map (·.1)) st.lastTimestamp
        cfg.assistantName).1)
      (saveState { st with lastTimestamp :=
          (getNewMessages store (groups.map (·.1)) st.lastTimestamp
            cfg.assistantName).2 }, q,
        [Event.persist ⟨(getNewMessages store (groups.map (·.1))
            st.lastTimestamp cfg.assistantName).2, st.lastAgentTimestamp⟩])
    have hpoll : pollIteration cfg groups store q st =
        (groupByJid (getNewMessages store (groups.map (·.1)) st.lastTimestamp
          cfg.assistantName).1).foldl (dispatchGroup cfg groups store)
          (saveState { st with lastTimestamp :=
              (getNewMessages store (groups.map (·.1)) st.lastTimestamp
                cfg.assistantName).2 }, q,
            [Event.persist ⟨(getNewMessages store (groups.map (·.1))
                st.lastTimestamp cfg.assistantName).2,
              st.lastAgentTimestamp⟩]) := by
      simp [pollIteration, hemp, saveState]
    rw [hpoll]
    refine ⟨fun _ => ⟨?_, pext, by rw [hp]; rfl⟩, ?_⟩
    · rw [p1]
      rfl
    · rw [p1]
      show strLe st.lastTimestamp (getNewMessages store (groups.map (·.1))
        st.lastTimestamp cfg.assistantName).2 = true
      have hmax : (getNewMessages store (groups.map (·.1)) st.lastTimestamp
          cfg.assistantName).2 =
          ((getNewMessages store (groups.map (·.1)) st.lastTimestamp
            cfg.assistantName).1.foldl
              (fun acc m => strMax acc m.timestamp) st.lastTimestamp) := by
        simp [getNewMessages]
      rw [hmax]
      exact strLe_foldl_strMax _ st.lastTimestamp

/-- Witness for `pollIteration_spec`: with two stored messages and an
empty observation cursor, the iteration persists the new maximum first
and the cursor does not decrease. -/
theorem pollIteration_spec_witness :
    ((pollIteration wCfg wGroups wStore wQIdle wSt).1.lastTimestamp
        = (getNewMessages wStore (wGroups.map (·.1)) wSt.lastTimestamp
            wCfg.assistantName).2 ∧
      ∃ rest, (pollIteration wCfg wGroups wStore wQIdle wSt).2.2 =
        Event.persist ⟨(getNewMessages wStore (wGroups.map (·.1))
            wSt.lastTimestamp wCfg.assistantName).2,
          wSt.lastAgentTimestamp⟩ :: rest) ∧
    strLe wSt.lastTimestamp
      (pollIteration wCfg wGroups wStore wQIdle wSt).1.lastTimestamp = true :=
  ⟨(pollIteration_spec wCfg wGroups wStore wQIdle wSt).1 (by decide),
   (pollIteration_spec wCfg wGroups wStore wQIdle wSt).2⟩

/-! ## C10: `.env` round trip -/

/-- `split('\n')` never yields an empty list of lines. -/
theorem splitNl_ne_nil (l : List Char) : splitNl l ≠ [] := by
  induction l with
  | nil => simp [splitNl]
  | cons c rest ih =>
    simp only [splitNl]
    by_cases h : c = '\n'
    · simp [h]
    · simp only [h, if_false]
      cases hr : splitNl rest with
      | nil => exact absurd hr ih
      | cons a as => simp [List.modifyHead]

/-- Every line produced by `split('\n')` is newline-free. -/
theorem splitNl_no_nl (l : List Char) : ∀ L ∈ splitNl l, '\n' ∉ L := by
  induction l with
  | nil =>
    intro L hL
    simp only [splitNl, List.mem_singleton] at hL
    subst hL
    simp
  | cons c rest ih =>
    intro L hL
    simp only [splitNl] at hL
    by_cases h : c = '\n'
    · rw [if_pos h] at hL
      rcases List.mem_cons.mp hL with h1 | h1
      · subst h1; simp
      · exact ih L h1
    · rw [if_neg h] at hL
      cases hr : splitNl rest with
      | nil =>
        rw [hr] at hL
        simp [List.modifyHead] at hL
      | cons a as =>
        rw [hr] at hL
        simp only [List.modifyHead] at hL
        rcases List.mem_cons.mp hL with h1 | h1
        · subst h1
          intro hmem
          rcases List.mem_cons.mp hmem with h2 | h2
          · exact h h2.symm
          · have ha : a ∈ splitNl rest := by
              rw [hr]; exact List.mem_cons_self a as
            exact ih a ha h2
        · have hL' : L ∈ splitNl rest := by
            rw [hr]; exact List.mem_cons_of_mem a h1
          exact ih L hL'

/-- Splitting after a newline-free prefix peels it off as one line. -/
theorem splitNl_append_nl (x : List Char) (rest : List Char)
    (hx : '\n' ∉ x) : splitNl (x ++ '\n' :: rest) = x :: splitNl rest := by
  induction x with
  | nil => simp [splitNl]
  | cons c cs ih =>
    have hc : c ≠ '\n' := fun h => hx (h ▸ List.mem_cons_self c cs)
    have hcs : '\n' ∉ cs := fun h => hx (List.mem_cons_of_mem c h)
    show splitNl (c :: (cs ++ '\n' :: rest)) = (c :: cs) :: splitNl rest
    simp only [splitNl, if_neg hc]
    rw [ih hcs]
    rfl

/-- A newline-free text splits into a single line. -/
theorem splitNl_of_no_nl (x : List Char) (hx : '\n' ∉ x) :
    splitNl x = [x] := by
  induction x with
  | nil => rfl
  | cons c cs ih =>
    have hc : c ≠ '\n' := fun h => hx (h ▸ List.mem_cons_self c cs)
    have hcs : '\n' ∉ cs := fun h => hx (List.mem_cons_of_mem c h)
    simp only [splitNl, if_neg hc, ih hcs, List.modifyHead]

/-- Splitting a joined list of newline-free lines followed by the final
newline recovers the lines, plus one trailing empty line. -/
theorem splitNl_joinNl (ls : List (List Char)) (hne : ls ≠ [])
    (hnl : ∀ L ∈ ls, '\n' ∉ L) :
    splitNl (joinNl ls ++ ['\n']) = ls ++ [[]] := by
  induction ls with
  | nil => exact absurd rfl hne
  | cons x t ih =>
    cases t with
    | nil =>
      have hx : '\n' ∉ x := hnl x (List.mem_cons_self x [])
      show splitNl (x ++ '\n' :: []) = [x, []]
      rw [splitNl_append_nl x [] hx]
      rfl
    | cons y t2 =>
      have hx : '\n' ∉ x := hnl x (List.mem_cons_self x (y :: t2))
      have hrec : ∀ L ∈ y :: t2, '\n' ∉ L := fun L hL =>
        hnl L (List.mem_cons_of_mem x hL)
      show splitNl ((x ++ '\n' :: joinNl (y :: t2)) ++ ['\n']) = _
      rw [List.append_assoc, List.cons_append,
        splitNl_append_nl x (joinNl (y :: t2) ++ ['\n']) hx,
        ih (by simp) hrec]
      rfl

/-- A list unchanged by `dropWhile` does not start with a matching
character. -/
theorem dropWhile_self_head (p : Char → Bool) (c : Char) (cs : List Char)
    (h : (c :: cs).dropWhile p = c :: cs) : p c = false := by
  by_cases hp : p c = true
  · rw [List.dropWhile_cons, if_pos hp] at h
    have hlen := (List.dropWhile_sublist (l := cs) (p := p)).length_le
    have := congrArg List.length h
    simp at this
    omega
  · simp at hp
    exact hp

/-- A left-trimmed non-empty prefix survives appending. -/
theorem trimLeft_append_of (a b : List Char) (ha : trimLeft a = a)
    (hne : a ≠ []) : trimLeft (a ++ b) = a ++ b := by
  cases a with
  | nil => exact absurd rfl hne
  | cons c cs =>
    have hc : isJsWs c = false := dropWhile_self_head isJsWs c cs ha
    show trimLeft (c :: (cs ++ b)) = c :: (cs ++ b)
    unfold trimLeft
    rw [List.dropWhile_cons, if_neg (by simp [hc])]

/-- A right-trimmed non-empty suffix survives prepending. -/
theorem trimRight_append_of (a b : List Char) (hb : trimRight b = b)
    (hne : b ≠ []) : trimRight (a ++ b) = a ++ b := by
  have hb' : b.reverse.dropWhile isJsWs = b.reverse := by
    have := congrArg List.reverse hb
    simpa [trimRight] using this
  cases hbr : b.reverse with
  | nil => exact absurd (by simpa using congrArg List.reverse hbr) hne
  | cons d ds =>
    have hd : isJsWs d = false := by
      rw [hbr] at hb'
      exact dropWhile_self_head isJsWs d ds hb'
    unfold trimRight
    rw [List.reverse_append, hbr]
    rw [List.cons_append, List.dropWhile_cons, if_neg (by simp [hd])]
    rw [← List.cons_append, ← hbr, ← List.reverse_append]
    exact List.reverse_reverse _

/-- The written line `key=value` is its own trim when key and value
are. -/
theorem jsTrim_mkLine (k v : List Char) (hk0 : k ≠ [])
    (hkL : trimLeft k = k) (hv0 : v ≠ []) (hvR : trimRight v = v) :
    jsTrim (envMkLine k v) = envMkLine k v := by
  unfold jsTrim envMkLine
  rw [trimLeft_append_of k ('=' :: v) hkL hk0]
  have : k ++ '=' :: v = (k ++ ['=']) ++ v := by simp
  rw [this, trimRight_append_of (k ++ ['=']) v hvR hv0]

/-- Index of the separator in the written line. -/
theorem findIdx_mkLine (k v : List Char) (hk : '=' ∉ k) :
    ∀ i, List.findIdx? (fun x => decide (x = '=')) (k ++ '=' :: v) i
      = some (i + k.length) := by
  induction k with
  | nil =>
    intro i
    simp [List.findIdx?_cons]
  | cons c cs ih =>
    intro i
    have hc : ¬ c = '=' := fun h => hk (h ▸ List.mem_cons_self c cs)
    have hcs : '=' ∉ cs := fun h => hk (List.mem_cons_of_mem c h)
    rw [List.cons_append, List.findIdx?_cons, if_neg (by simp [hc]),
      ih hcs (i + 1)]
    congr 1
    simp
    omega

/-- Parsing the written line `key=value` recovers the key and value. -/
theorem envParseLine_mkLine (k v : List Char) (hk0 : k ≠ [])
    (hkL : trimLeft k = k) (hkR : trimRight k = k) (hkE : '=' ∉ k)
    (hkH : k.head? ≠ some '#') (hv0 : v ≠ []) (hvL : trimLeft v = v)
    (hvR : trimRight v = v) :
    envParseLine (envMkLine k v) = some (k, v) := by
  have htrim : jsTrim (envMkLine k v) = envMkLine k v :=
    jsTrim_mkLine k v hk0 hkL hv0 hvR
  have hjk : jsTrim k = k := by
    unfold jsTrim
    rw [hkL, hkR]
  have hjv : jsTrim v = v := by
    unfold jsTrim
    rw [hvL, hvR]
  simp only [envParseLine, htrim]
  have hne : (envMkLine k v).isEmpty = false := by
    cases k with
    | nil => exact absurd rfl hk0
    | cons c cs => rfl
  rw [hne]
  simp only [Bool.false_eq_true, if_false]
  have hhead : (envMkLine k v).head? = k.head? := by
    cases k with
    | nil => exact absurd rfl hk0
    | cons c cs => rfl
  rw [hhead, if_neg hkH]
  have hfi : (envMkLine k v).findIdx? (fun x => decide (x = '=')) = some k.length := by
    have := findIdx_mkLine k v hkE 0
    simpa [envMkLine] using this
  rw [hfi]
  have htake : (envMkLine k v).take k.length = k := by
    unfold envMkLine
    exact List.take_left k ('=' :: v)
  have hdrop : (envMkLine k v).drop (k.length + 1) = v := by
    unfold envMkLine
    have h1 : k ++ '=' :: v = (k ++ ['=']) ++ v := by simp
    have h2 : k.length + 1 = (k ++ ['=']).length := by simp
    rw [h1, h2]
    exact List.drop_left (k ++ ['=']) v
  simp only [htake, hdrop, hjk, hjv]

/-- Reading back a key just set. -/
theorem envLookup_envSet_self (m : List (List Char × List Char))
    (k v : List Char) : envLookup (envSet m k v) k = some v := by
  induction m with
  | nil => simp [envSet, envLookup]
  | cons p rest ih =>
    obtain ⟨k', v'⟩ := p
    by_cases h : k' = k
    · simp [envSet, envLookup, h]
    · simp [envSet, envLookup, h, ih]

/-- Reading one written `key=value` line assigns the value. -/
theorem readEnvStep_mkLine (k v : List Char) (hk0 : k ≠ [])
    (hkL : trimLeft k = k) (hkR : trimRight k = k) (hkE : '=' ∉ k)
    (hkH : k.head? ≠ some '#') (hv0 : v ≠ []) (hvL : trimLeft v = v)
    (hvR : trimRight v = v)
    (hvQ : ¬((v.head? = some '"' ∧ v.getLast? = some '"') ∨
      (v.head? = some '\'' ∧ v.getLast? = some '\''))) :
    ∀ acc, readEnvStep [k] acc (envMkLine k v) = envSet acc k v := by
  intro acc
  unfold readEnvStep
  rw [envParseLine_mkLine k v hk0 hkL hkR hkE hkH hv0 hvL hvR]
  have hq : stripQuotes v = v := by
    unfold stripQuotes
    rw [if_neg hvQ]
  have hvne : v.isEmpty = false := by
    cases v with
    | nil => exact absurd rfl hv0
    | cons c cs => rfl
  simp [hq, hvne]

/-- Reading a line whose key is not wanted (or that does not parse)
leaves the accumulator unchanged. -/
theorem readEnvStep_skip (k L : List Char)
    (h : envParseLine L = none ∨
      ∃ key rawv, envParseLine L = some (key, rawv) ∧ key ≠ k) :
    ∀ acc, readEnvStep [k] acc L = acc := by
  intro acc
  unfold readEnvStep
  rcases h with h | ⟨key, rawv, hp, hne⟩
  · rw [h]
  · rw [hp]
    simp [hne]

/-- Folding the read step over lines that each either skip or set the
key keeps a `some v` binding. -/
theorem readEnv_fold_keep (k v : List Char) :
    ∀ (ls : List (List Char)) (acc : List (List Char × List Char)),
      (∀ L ∈ ls, (∀ a, readEnvStep [k] a L = a) ∨
        (∀ a, readEnvStep [k] a L = envSet a k v)) →
      envLookup acc k = some v →
      envLookup (ls.foldl (readEnvStep [k]) acc) k = some v := by
  intro ls
  induction ls with
  | nil => intro acc _ hacc; exact hacc
  | cons L t ih =>
    intro acc hcl hacc
    rw [List.foldl_cons]
    rcases hcl L (List.mem_cons_self L t) with hU | hS
    · rw [hU acc]
      exact ih acc (fun L' hL' => hcl L' (List.mem_cons_of_mem L hL')) hacc
    · rw [hS acc]
      exact ih (envSet acc k v)
        (fun L' hL' => hcl L' (List.mem_cons_of_mem L hL'))
        (envLookup_envSet_self acc k v)

/-- Folding the read step over classified lines, at least one of which
sets the key, yields the `some v` binding. -/
theorem readEnv_fold_lookup (k v : List Char) :
    ∀ (ls : List (List Char)) (acc : List (List Char × List Char)),
      (∀ L ∈ ls, (∀ a, readEnvStep [k] a L = a) ∨
        (∀ a, readEnvStep [k] a L = envSet a k v)) →
      (∃ L ∈ ls, ∀ a, readEnvStep [k] a L = envSet a k v) →
      envLookup (ls.foldl (readEnvStep [k]) acc) k = some v := by
  intro ls
  induction ls with
  | nil =>
    intro acc _ hex
    obtain ⟨L, hL, -⟩ := hex
    exact absurd hL (List.not_mem_nil L)
  | cons L t ih =>
    intro acc hcl hex
    rw [List.foldl_cons]
    obtain ⟨L', hL', hset⟩ := hex
    rcases List.mem_cons.mp hL' with h1 | h1
    · subst h1
      rw [hset acc]
      exact readEnv_fold_keep k v t (envSet acc k v)
        (fun L2 hL2 => hcl L2 (List.mem_cons_of_mem L' hL2))
        (envLookup_envSet_self acc k v)
    · rcases hcl L (List.mem_cons_self L t) with hU | hS
      · rw [hU acc]
        exact ih acc (fun L2 hL2 => hcl L2 (List.mem_cons_of_mem L hL2))
          ⟨L', h1, hset⟩
      · rw [hS acc]
        exact readEnv_fold_keep k v t (envSet acc k v)
          (fun L2 hL2 => hcl L2 (List.mem_cons_of_mem L hL2))
          (envLookup_envSet_self acc k v)

/-- The empty line does not parse. -/
theorem envParseLine_nil : envParseLine ([] : List Char) = none := rfl

/-- A line parsing to the updated key is rewritten to `key=value`. -/
theorem updateEnvLine_hit (k v L rawv : List Char)
    (hp : envParseLine L = some (k, rawv)) :
    updateEnvLine [(k, v)] L = envMkLine k v := by
  unfold updateEnvLine
  rw [hp]
  simp [envLookup]

/-- A line that does not parse, or parses to a different key, is kept
unchanged. -/
theorem updateEnvLine_miss (k v L : List Char)
    (h : envParseLine L = none ∨
      ∀ key rawv, envParseLine L = some (key, rawv) → key ≠ k) :
    updateEnvLine [(k, v)] L = L := by
  unfold updateEnvLine
  cases hp : envParseLine L with
  | none => rfl
  | some kv =>
    obtain ⟨key, rawv⟩ := kv
    rcases h with h | h
    · rw [hp] at h; exact absurd h (by simp)
    · have hne : key ≠ k := h key rawv hp
      have h0 : envLookup [(k, v)] key = none := by
        simp [envLookup, Ne.symm hne]
      simp [h0]

/-- Rewriting a line either keeps it (when its key is not the updated
one) or produces exactly `key=value`. -/
theorem updateEnvLine_cases (k v L : List Char) :
    (updateEnvLine [(k, v)] L = L ∧
      (envParseLine L = none ∨
        ∃ key rawv, envParseLine L = some (key, rawv) ∧ key ≠ k)) ∨
    updateEnvLine [(k, v)] L = envMkLine k v := by
  cases hp : envParseLine L with
  | none => exact Or.inl ⟨updateEnvLine_miss k v L (Or.inl hp), Or.inl rfl⟩
  | some kv =>
    obtain ⟨key, rawv⟩ := kv
    by_cases hk : key = k
    · subst hk
      exact Or.inr (updateEnvLine_hit key v L rawv hp)
    · refine Or.inl ⟨updateEnvLine_miss k v L (Or.inr ?_),
        Or.inr ⟨key, rawv, rfl, hk⟩⟩
      intro key' rawv' hp'
      rw [hp] at hp'
      injection hp' with hpair
      cases hpair
      exact hk

/-- A found key recorded by the per-line loop is the updated key, and
the line parses to it. -/
theorem updateEnvFound_some (k v L w : List Char)
    (h : updateEnvFound [(k, v)] L = some w) :
    w = k ∧ ∃ rawv, envParseLine L = some (k, rawv) := by
  unfold updateEnvFound at h
  cases hp : envParseLine L with
  | none => rw [hp] at h; exact absurd h (by simp)
  | some kv =>
    obtain ⟨key, rawv⟩ := kv
    rw [hp] at h
    by_cases hk : k = key
    · subst hk
      simp [envLookup] at h
      exact ⟨h.symm, rawv, rfl⟩
    · simp [envLookup, hk] at h

/-- The written line `key=value` contains no newline when neither key
nor value does. -/
theorem envMkLine_no_nl (k v : List Char) (hkN : '\n' ∉ k)
    (hvN : '\n' ∉ v) : '\n' ∉ envMkLine k v := by
  unfold envMkLine
  intro h
  rcases List.mem_append.mp h with h | h
  · exact hkN h
  · rcases List.mem_cons.mp h with h | h
    · simp at h
    · exact hvN h

/-- C10 (amended): for a key and value that are their own trims,
newline-free, with the key non-empty, `=`-free and not starting a
comment, and the value non-empty and not wrapped in matching quotes,
`readEnvFile [k]` after `updateEnvFile {k: v}` yields `v` — whether or
not `k` previously existed — and every line whose key is not the
updated one is kept in the rewritten file. -/
theorem env_update_read_roundtrip (content k v : List Char)
    (hk0 : k ≠ []) (hkL : trimLeft k = k) (hkR : trimRight k = k)
    (hkE : '=' ∉ k) (hkH : k.head? ≠ some '#') (hkN : '\n' ∉ k)
    (hv0 : v ≠ []) (hvL : trimLeft v = v) (hvR : trimRight v = v)
    (hvN : '\n' ∉ v)
    (hvQ : ¬((v.head? = some '"' ∧ v.getLast? = some '"') ∨
      (v.head? = some '\'' ∧ v.getLast? = some '\''))) :
    envLookup (readEnvFile [k] (updateEnvFile [(k, v)] content)) k = some v ∧
    ∀ L ∈ splitNl content,
      (envParseLine L = none ∨
        ∀ key rawv, envParseLine L = some (key, rawv) → key ≠ k) →
      L ∈ splitNl (updateEnvFile [(k, v)] content) := by
  have hS : ∀ a, readEnvStep [k] a (envMkLine k v) = envSet a k v :=
    readEnvStep_mkLine k v hk0 hkL hkR hkE hkH hv0 hvL hvR hvQ
  have main : ∀ extra : List (List Char),
      (∀ L ∈ extra, L = envMkLine k v) →
      updateEnvFile [(k, v)] content =
        joinNl ((splitNl content).map (updateEnvLine [(k, v)]) ++ extra) ++
          ['\n'] →
      (∃ L ∈ (splitNl content).map (updateEnvLine [(k, v)]) ++ extra,
        ∀ a, readEnvStep [k] a L = envSet a k v) →
      envLookup (readEnvFile [k] (updateEnvFile [(k, v)] content)) k
          = some v ∧
      ∀ L ∈ splitNl content,
        (envParseLine L = none ∨
          ∀ key rawv, envParseLine L = some (key, rawv) → key ≠ k) →
        L ∈ splitNl (updateEnvFile [(k, v)] content) := by
    intro extra hextra hupd hex
    have hnlmap : ∀ L ∈ (splitNl content).map (updateEnvLine [(k, v)]),
        '\n' ∉ L := by
      intro L hL
      obtain ⟨L0, hL0, rfl⟩ := List.mem_map.mp hL
      rcases updateEnvLine_cases k v L0 with ⟨heq, -⟩ | heq
      · rw [heq]
        exact splitNl_no_nl content L0 hL0
      · rw [heq]
        exact envMkLine_no_nl k v hkN hvN
    have hnlall : ∀ L ∈ (splitNl content).map (updateEnvLine [(k, v)]) ++
        extra, '\n' ∉ L := by
      intro L hL
      rcases List.mem_append.mp hL with h | h
      · exact hnlmap L h
      · rw [hextra L h]
        exact envMkLine_no_nl k v hkN hvN
    have hnenil : (splitNl content).map (updateEnvLine [(k, v)]) ++ extra
        ≠ [] := by
      intro h
      exact splitNl_ne_nil content
        (List.map_eq_nil_iff.mp (List.append_eq_nil.mp h).1)
    have hsplit : splitNl (updateEnvFile [(k, v)] content) =
        ((splitNl content).map (updateEnvLine [(k, v)]) ++ extra) ++ [[]] := by
      rw [hupd]
      exact splitNl_joinNl _ hnenil hnlall
    have hcl : ∀ L ∈ ((splitNl content).map (updateEnvLine [(k, v)]) ++
        extra) ++ [[]],
        (∀ a, readEnvStep [k] a L = a) ∨
        (∀ a, readEnvStep [k] a L = envSet a k v) := by
      intro L hL
      rcases List.mem_append.mp hL with h | h
      · rcases List.mem_append.mp h with h | h
        · obtain ⟨L0, hL0, rfl⟩ := List.mem_map.mp h
          rcases updateEnvLine_cases k v L0 with ⟨heq, hskip⟩ | heq
          · rw [heq]
            exact Or.inl (readEnvStep_skip k L0 hskip)
          · rw [heq]
            exact Or.inr hS
        · rw [hextra L h]
          exact Or.inr hS
      · have : L = [] := by simpa using h
        subst this
        exact Or.inl (readEnvStep_skip k [] (Or.inl envParseLine_nil))
    constructor
    · show envLookup ((splitNl (updateEnvFile [(k, v)] content)).foldl
        (readEnvStep [k]) []) k = some v
      rw [hsplit]
      obtain ⟨L, hL, hSL⟩ := hex
      exact readEnv_fold_lookup k v _ [] hcl ⟨L, List.mem_append_left _ hL, hSL⟩
    · intro L hL hskip
      have heq := updateEnvLine_miss k v L hskip
      have hmem := List.mem_map_of_mem (updateEnvLine [(k, v)]) hL
      rw [heq] at hmem
      rw [hsplit]
      exact List.mem_append_left _ (List.mem_append_left _ hmem)
  by_cases hfound : ((splitNl content).filterMap
      (updateEnvFound [(k, v)])).contains k = true
  · refine main [] (by simp) ?_ ?_
    · simp only [updateEnvFile, List.filter_cons, List.filter_nil]
      rw [if_neg (by simpa using hfound)]
      simp
    · have hmem : k ∈ (splitNl content).filterMap (updateEnvFound [(k, v)]) := by
        simpa using hfound
      obtain ⟨L0, hL0, hf⟩ := List.mem_filterMap.mp hmem
      obtain ⟨-, rawv, hp⟩ := updateEnvFound_some k v L0 k hf
      have hit := updateEnvLine_hit k v L0 rawv hp
      refine ⟨envMkLine k v, ?_, hS⟩
      rw [← hit]
      exact List.mem_append_left _
        (List.mem_map_of_mem (updateEnvLine [(k, v)]) hL0)
  · refine main [envMkLine k v] (by simp) ?_ ?_
    · simp only [updateEnvFile, List.filter_cons, List.filter_nil]
      rw [if_pos (by simpa using hfound)]
      simp
    · exact ⟨envMkLine k v, List.mem_append_right _ (by simp), hS⟩

/-- Witness for `env_update_read_roundtrip`: adding `K=hello` to a file
holding `X=1` reads back `hello`, and the `X=1` line is preserved. -/
theorem env_update_read_roundtrip_witness :
    envLookup (readEnvFile ["K".toList]
        (updateEnvFile [("K".toList, "hello".toList)] "X=1\n".toList))
      "K".toList = some "hello".toList ∧
    ∀ L ∈ splitNl "X=1\n".toList,
      (envParseLine L = none ∨
        ∀ key rawv, envParseLine L = some (key, rawv) → key ≠ "K".toList) →
      L ∈ splitNl (updateEnvFile [("K".toList, "hello".toList)]
        "X=1\n".toList) :=
  env_update_read_roundtrip "X=1\n".toList "K".toList "hello".toList
    (by decide) (by decide) (by decide) (by decide) (by decide) (by decide)
    (by decide) (by decide) (by decide) (by decide) (by decide)

/-- Counterexample to C10 as stated: the claim quantifies over every
non-empty single-line unquoted value, but a value with a trailing space
(`"a "`) does not read back as itself — the stored line is trimmed on
read, yielding `"a"`. -/
theorem env_update_read_roundtrip_cex :
    ¬ (envLookup (readEnvFile ["K".toList]
        (updateEnvFile [("K".toList, "a ".toList)] [])) "K".toList
      = some "a ".toList) := by decide
